import Mathlib

/-!
Verification of core behaviours of the WebBot chat-bot platform.

Each Python component relevant to the checked properties is translated
into an executable Lean definition (shallow embedding): Python dicts that
preserve insertion order become association lists, machine time becomes an
explicit integer parameter, network and crypto primitives become explicit
parameters or outcomes, and fallible code returns `Option`.
-/

set_option autoImplicit false
set_option maxRecDepth 8000

namespace WebBot

/-! ## Message sequence manager (`Core/message/msgseq.py`)

`MsgSeqManager.msg_counters` is a Python dict `msg_id -> counter` that
preserves insertion order; we model it as an association list where new
keys are appended at the end.  `_cleanup_old_counters` deletes the first
(oldest inserted) key once the dict holds more than `max_msg_ids = 100`
entries.  Only the branch for a non-empty `msg_id` is modelled; the
`msg_id`-less branch draws on wall-clock time and randomness. -/

/-- Python `msg_id in self.msg_counters` / `self.msg_counters[msg_id]`:
first (unique) binding of the key in the ordered dict. -/
def lookupCounter : List (String × Nat) → String → Option Nat
  | [], _ => none
  | (k, v) :: rest, msgId => if k = msgId then some v else lookupCounter rest msgId

/-- Python `self.msg_counters[msg_id] = n` for a key that is already
present: the binding is updated in place, keeping its position. -/
def setCounter : List (String × Nat) → String → Nat → List (String × Nat)
  | [], _, _ => []
  | (k, v) :: rest, msgId, n =>
    if k = msgId then (k, n) :: rest else (k, v) :: setCounter rest msgId n

/-- `MsgSeqManager._cleanup_old_counters`: when more than `max_msg_ids = 100`
counters are held, delete the oldest (first-inserted) key. -/
def cleanupOldCounters (cs : List (String × Nat)) : List (String × Nat) :=
  if 100 < cs.length then cs.tail else cs

/-- `MsgSeqManager.get_msg_seq` for a non-empty `msg_id`: a new key starts
at 1 (and triggers cleanup), an existing key is incremented; the stored
value is returned.  Returns `(msg_seq, new state)`. -/
def getMsgSeq (cs : List (String × Nat)) (msgId : String) : Nat × List (String × Nat) :=
  match lookupCounter cs msgId with
  | none => (1, cleanupOldCounters (cs ++ [(msgId, 1)]))
  | some n => (n + 1, setCounter cs msgId (n + 1))

/-- Trace semantics of `QQAPIClient._generate_msgseq`: a sequence of calls
(one original `msg_id` each) against the shared manager state, recording
every `(msg_id, msg_seq)` pair the webhook adapter would emit. -/
def runMsgSeq : List String → List (String × Nat) → List (String × Nat) × List (String × Nat)
  | [], st => ([], st)
  | msgId :: rest, st =>
    let p := getMsgSeq st msgId
    let r := runMsgSeq rest p.2
    ((msgId, p.1) :: r.1, r.2)

/-- Call trace that first uses msg_id "A", then 100 fresh msg_ids (which
evicts the counter for "A"), then "A" again. -/
def c3trace : List String :=
  "A" :: ((List.range 100).map fun i => String.mk [Char.ofNat (200 + i)]) ++ ["A"]

/-! ## Token lifecycle (`Adapters/qq/api_client.py`)

The mutable fields of `QQAPIClient` that `ensure_authenticated` consults
are modelled as a record; `time.time()` becomes the explicit `now`
argument, and the outcome of the (network) `authenticate()` call is the
explicit `authOutcome` argument. -/

structure TokenState where
  accessToken : Option String
  tokenExpiresAt : Int
  tokenRefreshing : Bool
  refreshThreadAlive : Bool
  deriving DecidableEq, Repr

/-- Python truthiness of an optional string (`None` and `""` are falsy). -/
def strTruthy : Option String → Bool
  | none => false
  | some t => t ≠ ""

/-- Python truthiness of an optional integer id (`None` and `0` are falsy). -/
def natTruthy : Option Nat → Bool
  | none => false
  | some n => n ≠ 0

/-- `QQAPIClient.is_token_valid`. -/
def isTokenValid (s : TokenState) (now : Int) : Bool :=
  strTruthy s.accessToken && now < s.tokenExpiresAt

/-- `QQAPIClient.should_refresh_token`. -/
def shouldRefreshToken (s : TokenState) (now : Int) : Bool :=
  !strTruthy s.accessToken || s.tokenExpiresAt - 60 ≤ now

/-- What refresh work `ensure_authenticated` kicked off. -/
inductive RefreshAction where
  | syncRefresh
  | backgroundRefresh
  | noAction
  deriving DecidableEq, Repr

/-- `QQAPIClient.ensure_authenticated`: invalid token means a blocking
`authenticate()` whose outcome is returned; a valid token inside the
refresh window starts a background refresh unless `_token_refreshing` is
set or the previous refresh thread is still alive (the guards of
`_async_refresh_token`); otherwise nothing happens and `True` is
returned. -/
def ensureAuthenticated (s : TokenState) (now : Int) (authOutcome : Bool) :
    Bool × RefreshAction :=
  if !isTokenValid s now then
    (authOutcome, RefreshAction.syncRefresh)
  else if shouldRefreshToken s now then
    if !s.tokenRefreshing then
      if s.refreshThreadAlive then (true, RefreshAction.noAction)
      else (true, RefreshAction.backgroundRefresh)
    else (true, RefreshAction.noAction)
  else (true, RefreshAction.noAction)

/-! ## Key-value store with TTL (`Database/Redis/client.py`)

The Redis-backed path of `set_value` / `get_value`: a key maps to a value
together with an optional absolute expiry instant; `get` treats an expired
key as absent. -/

abbrev KVStore : Type := List (String × String × Option Int)

/-- `set_value(key, value, expire_seconds)` on the store (Redis `SET` with
`ex=`): any previous binding for the key is replaced. -/
def kvSet (st : KVStore) (now : Int) (k v : String) (ttl : Option Int) : KVStore :=
  (k, v, ttl.map (now + ·)) :: st.filter (fun e => e.1 ≠ k)

/-- `get_value(key)` on the store: the binding if present and unexpired. -/
def kvGet (st : KVStore) (now : Int) (k : String) : Option String :=
  match st.find? (fun e => e.1 = k) with
  | none => none
  | some (_, v, e) =>
    match e with
    | none => some v
    | some t => if now < t then some v else none

/-! ## Webhook event deduplication (`BluePrints/webhook/qq/handler.py`)

`QQWebhookHandler.handle_event`, restricted to the dedup decision that
precedes routing: `datetime.now().strftime("%Y%m%d")` becomes the explicit
`today` argument and `time.time()` the explicit `now` argument. -/

/-- `QQWebhookHandler._get_event_redis_key`. -/
def dedupKey (today eventId : String) : String :=
  "qq_event_dedup:" ++ today ++ ":" ++ eventId

/-- `QQWebhookHandler._is_duplicate_event`. -/
def isDuplicateEvent (st : KVStore) (now : Int) (today eventId : String) : Bool :=
  (kvGet st now (dedupKey today eventId)).isSome

/-- `QQWebhookHandler._record_event`: record the key with a 24-hour
(86400 s) expiry. -/
def recordEvent (st : KVStore) (now : Int) (today eventId : String) : KVStore :=
  kvSet st now (dedupKey today eventId) "true" (some 86400)

structure DedupOutcome where
  /-- the handler returned `status: duplicate` without routing -/
  duplicate : Bool
  /-- the event was routed to an event processor -/
  processed : Bool
  store : KVStore

/-- Dedup portion of `QQWebhookHandler.handle_event`: a truthy event id
that is already recorded short-circuits to `duplicate`; otherwise the id
(when truthy) is recorded first and the event is then routed. -/
def handleEventDedup (st : KVStore) (now : Int) (today : String)
    (eventId : Option String) : DedupOutcome :=
  if strTruthy eventId then
    let eid := eventId.getD ""
    if isDuplicateEvent st now today eid then ⟨true, false, st⟩
    else ⟨false, true, recordEvent st now today eid⟩
  else ⟨false, true, st⟩

/-! ## Workflow dispatch selection (`Core/workflow/cache.py`)

`WorkflowCache.reload` keeps only the enabled workflows; each cached entry
carries the config fields consulted by `get_workflows_by_trigger`. -/

structure CachedWorkflow where
  wfId : Nat
  enabled : Bool
  triggerType : String
  eventFilter : List String
  protocols : List String
  deriving DecidableEq, Repr

structure Subscription where
  userId : Nat
  workflowId : Nat
  enabled : Bool
  deriving DecidableEq, Repr

/-- `WorkflowCache._get_subscribed_workflow_ids`: the enabled
subscriptions of the user; a falsy `user_id` yields the empty set. -/
def subscribedWorkflowIds (subs : List Subscription) (userId : Option Nat) : List Nat :=
  match userId with
  | none => []
  | some u =>
    if u = 0 then []
    else (subs.filter (fun s => s.userId = u && s.enabled)).map (fun s => s.workflowId)

/-- Per-workflow filter of `WorkflowCache.get_workflows_by_trigger`
(the `continue` chain): trigger type must match; the event filter applies
only for a non-empty `event_name`; the subscription check applies only for
a truthy `user_id`; the protocol allowlist applies only for a truthy
`protocol`. -/
def matchesTrigger (subscribed : List Nat) (triggerType : String)
    (protocol : Option String) (userId : Option Nat) (eventName : String)
    (w : CachedWorkflow) : Bool :=
  if w.triggerType ≠ triggerType then false
  else if eventName ≠ "" && !w.eventFilter.isEmpty && !w.eventFilter.contains eventName then
    false
  else if natTruthy userId && !subscribed.contains w.wfId then false
  else if strTruthy protocol && !w.protocols.isEmpty
      && !w.protocols.contains (protocol.getD "") then false
  else true

/-- `WorkflowCache.get_workflows_by_trigger` over the cached list. -/
def getWorkflowsByTrigger (cache : List CachedWorkflow) (subs : List Subscription)
    (triggerType : String) (protocol : Option String) (userId : Option Nat)
    (eventName : String) : List CachedWorkflow :=
  cache.filter (matchesTrigger (subscribedWorkflowIds subs userId) triggerType
    protocol userId eventName)

/-- `WorkflowCache.reload`: the cache holds exactly the enabled workflows
(in priority order). -/
def loadCache (db : List CachedWorkflow) : List CachedWorkflow :=
  db.filter (fun w => w.enabled)

/-- Workflows dispatched for one event: `MessageHandler._async_process_message`
queries the cache with the event's trigger type, protocol, bot-owner id and
sub-kind name (empty for message events). -/
def dispatchedWorkflows (db : List CachedWorkflow) (subs : List Subscription)
    (triggerType : String) (protocol : Option String) (ownerId : Option Nat)
    (eventName : String) : List CachedWorkflow :=
  getWorkflowsByTrigger (loadCache db) subs triggerType protocol ownerId eventName

/-- Modelled from the spec: the dispatch set claimed in the specification,
`w.enabled ∧ w.trigger_type == event.kind ∧ (w.protocols == ∅ ∨ event.protocol ∈
w.protocols) ∧ owner_subscribed(owner, w) ∧ (w.event_filter == ∅ ∨ event.sub_name
∈ w.event_filter)`. -/
def claimedDispatchSet (db : List CachedWorkflow) (subs : List Subscription)
    (triggerType : String) (protocol : String) (ownerId : Nat)
    (eventName : String) : List CachedWorkflow :=
  db.filter (fun w =>
    w.enabled && w.triggerType = triggerType
      && (w.protocols.isEmpty || w.protocols.contains protocol)
      && subs.any (fun s => s.userId = ownerId && s.workflowId = w.wfId && s.enabled)
      && (w.eventFilter.isEmpty || w.eventFilter.contains eventName))

/-! ## WebSocket API correlation (`Adapters/onebot/v11/adapter.py`)

`OneBotAdapter.api_responses` is a dict `echo -> response frame`; a frame
carrying `status` or `retcode` is an API response.  `_call_api` polls the
dict 50 times (0.1 s apart); the frames delivered by the reader thread
between two consecutive polls are the explicit `arrivals` rounds. -/

structure WSFrame where
  echo : Option String
  status : Option String
  retcode : Option Int
  data : Option String
  deriving DecidableEq, Repr

abbrev CorrMap : Type := List (String × WSFrame)

/-- Python dict assignment `self.api_responses[echo] = data`. -/
def corrInsert : CorrMap → String → WSFrame → CorrMap
  | [], k, f => [(k, f)]
  | (k', f') :: rest, k, f =>
    if k' = k then (k', f) :: rest else (k', f') :: corrInsert rest k f

/-- Python `echo in self.api_responses` / `self.api_responses[echo]`. -/
def corrLookup : CorrMap → String → Option WSFrame
  | [], _ => none
  | (k', f') :: rest, k => if k' = k then some f' else corrLookup rest k

/-- Python `self.api_responses.pop(echo, None)` (the remaining dict). -/
def corrErase (m : CorrMap) (k : String) : CorrMap :=
  m.filter (fun e => e.1 ≠ k)

/-- API-response half of `OneBotAdapter._on_message`: a frame carrying
`status` or `retcode` is deposited into the correlation map under its
(truthy) echo; event frames leave the map unchanged. -/
def onMessageCorr (m : CorrMap) (f : WSFrame) : CorrMap :=
  if f.status.isSome || f.retcode.isSome then
    if strTruthy f.echo then corrInsert m (f.echo.getD "") f else m
  else m

/-- Polling loop of `OneBotAdapter._call_api`: up to 50 probes of the
correlation map; between two probes the next round of arriving frames is
demultiplexed by `_on_message`.  A found response is popped and yields its
`data` when `status == "ok"` or `retcode` (defaulting to 0) equals 0, and
`None` otherwise; exhausting the probes pops the echo slot and yields
`None`. -/
def callApiLoop (echo : String) (m : CorrMap) (arrivals : List (List WSFrame)) :
    Nat → Option String × CorrMap
  | 0 => (none, corrErase m echo)
  | n + 1 =>
    match corrLookup m echo with
    | some resp =>
      let m' := corrErase m echo
      if resp.status = some "ok" || resp.retcode.getD 0 = 0 then (resp.data, m')
      else (none, m')
    | none =>
      callApiLoop echo ((arrivals.headD []).foldl onMessageCorr m) arrivals.tail n

/-- `OneBotAdapter._call_api` after the frame `{action, params, echo}` has
been sent: 50 polling rounds. -/
def callApi (echo : String) (m : CorrMap) (arrivals : List (List WSFrame)) :
    Option String × CorrMap :=
  callApiLoop echo m arrivals 50

/-! ## Ed25519 seed derivation (`BluePrints/webhook/qq/handler.py`)

Both `_verify_ed25519_simple` and `generate_verification_signature` derive
the signing seed with `seed = secret; while len(seed) < 32: seed += seed;
seed = seed[:32].encode('utf-8')`.  The `while` loop is modelled with
explicit fuel (`none` = the loop is still running when the fuel is
spent). -/

def seedLoop : Nat → List Char → Option (List Char)
  | 0, s => if s.length < 32 then none else some s
  | n + 1, s => if s.length < 32 then seedLoop n (s ++ s) else some s

/-- Seed derivation: the doubling loop followed by `seed[:32]`
(a 32-character Python string slice). -/
def deriveSeedChars (fuel : Nat) (secret : List Char) : Option (List Char) :=
  (seedLoop fuel secret).map (List.take 32)

/-- Number of bytes `.encode('utf-8')` produces for one character. -/
def utf8Width (c : Char) : Nat :=
  if c.toNat < 0x80 then 1
  else if c.toNat < 0x800 then 2
  else if c.toNat < 0x10000 then 3
  else 4

/-- Number of bytes `.encode('utf-8')` produces for a string. -/
def utf8Length (s : List Char) : Nat := (s.map utf8Width).sum

/-! ## Template rendering (`Core/workflow/context.py`)

`WorkflowContext.render_template` compiles the template with Jinja2 and
renders it over the context variables plus a `global` namespace; any
exception falls back to the unchanged template string.  The Jinja2 library
call is modelled by the subset the workflows use: a template is plain text
with embedded variable tags, an unclosed tag raises a syntax error, and an
undefined variable renders as the empty string (Jinja's default
`Undefined`). -/

def openBrace : Char := Char.ofNat 123

def closeBrace : Char := Char.ofNat 125

/-- Python `str.strip()` on a character list. -/
def stripChars (cs : List Char) : List Char :=
  ((cs.dropWhile Char.isWhitespace).reverse.dropWhile Char.isWhitespace).reverse

/-- First binding of a name in an association list of variables. -/
def lookupAssoc : List (String × String) → String → Option String
  | [], _ => none
  | (k, v) :: rest, n => if k = n then some v else lookupAssoc rest n

/-- Remainder of `cs` after a leading run equal to `pat`, if `pat` leads. -/
def takeLeading : List Char → List Char → Option (List Char)
  | [], cs => some cs
  | _, [] => none
  | p :: ps, c :: cs => if p = c then takeLeading ps cs else none

/-- Value of a variable tag: names of the shape `global.key` resolve in the
global-variable namespace, plain names in the context variables, and an
undefined name renders as the empty string. -/
def lookupTemplateVar (vars globals : List (String × String)) (name : List Char) : String :=
  match takeLeading "global.".toList name with
  | some rest => (lookupAssoc globals (String.mk rest)).getD ""
  | none => (lookupAssoc vars (String.mk name)).getD ""

/-- Scan for the closing tag: splits `cs` into the expression before the
first closing double-brace and the text after it; `none` when the tag is
never closed. -/
def splitClose : List Char → Option (List Char × List Char)
  | [] => none
  | [_] => none
  | a :: b :: rest =>
    if a = closeBrace ∧ b = closeBrace then some ([], rest)
    else (splitClose (b :: rest)).map (fun p => (a :: p.1, p.2))

/-- Rendering of the modelled Jinja subset: substitute every variable tag,
failing (like `TemplateSyntaxError`) on an unclosed tag.  The fuel is one
step per consumed character; `tryRender` supplies enough. -/
def tryRenderF (vars globals : List (String × String)) : Nat → List Char → Option (List Char)
  | 0, _ => none
  | _ + 1, [] => some []
  | _ + 1, [c] => some [c]
  | fuel + 1, a :: b :: rest =>
    if a = openBrace ∧ b = openBrace then
      match splitClose rest with
      | none => none
      | some (expr, rest') =>
        (tryRenderF vars globals fuel rest').map
          (fun tail =>
            (lookupTemplateVar vars globals (stripChars expr)).toList ++ tail)
    else (tryRenderF vars globals fuel (b :: rest)).map (fun tail => a :: tail)

/-- Template compilation and rendering (`env.from_string` + `render`). -/
def tryRender (vars globals : List (String × String)) (cs : List Char) :
    Option (List Char) :=
  tryRenderF vars globals (cs.length + 1) cs

/-- `WorkflowContext.render_template`: the rendered string on success, the
unchanged template string on any failure. -/
def renderTemplate (vars globals : List (String × String)) (template : List Char) :
    List Char :=
  match tryRender vars globals template with
  | some r => r
  | none => template

/-! ## Condition branching in the engine
(`Core/workflow/nodes/condition.py`, `Core/workflow/engine.py`) -/

/-- Return map of a node's `execute` as consumed by `_run_nodes`. -/
structure NodeResult where
  success : Bool
  result : Bool
  nextNode : Option String
  stopSequence : Bool
  deriving DecidableEq, Repr

/-- Tail of `ConditionNode._execute_simple` (after the operator has been
evaluated to `condResult`): the result picks `true_branch` or
`false_branch`; an empty branch string becomes `next_node: None`. -/
def condExecuteSimple (condResult : Bool) (trueBranch falseBranch : String)
    (stopAfter : Bool) : NodeResult :=
  let nn := if condResult then trueBranch else falseBranch
  ⟨true, condResult, if nn = "" then none else some nn, stopAfter⟩

/-- `ConditionNode.should_break`: break when the condition is false and no
jump target was selected. -/
def condShouldBreak (r : NodeResult) : Bool :=
  !r.result && r.nextNode.isNone

/-- Continuation decision of one `_run_nodes` iteration. -/
inductive StepOutcome where
  | halted
  | continueAt (idx : Nat)
  deriving DecidableEq, Repr

/-- Python dict comprehension over `enumerate(self.workflow_steps)`: maps a
step id to its index, the last occurrence winning. -/
def idxOfLast : List String → String → Option Nat
  | [], _ => none
  | x :: xs, nid =>
    match idxOfLast xs nid with
    | some j => some (j + 1)
    | none => if x = nid then some 0 else none

/-- One `_run_nodes` iteration after the node at `idx` produced `r`
(no active loop frame, result carries no `loop` flag): `should_break`
ends the workflow; a jump target that exists in the step list is jumped
to; otherwise execution advances to `idx + 1`. -/
def engineIter (stepIds : List String) (idx : Nat) (r : NodeResult)
    (shouldBreak : Bool) : StepOutcome :=
  if shouldBreak then StepOutcome.halted
  else
    match r.nextNode with
    | some nid =>
      match idxOfLast stepIds nid with
      | some j => StepOutcome.continueAt j
      | none => StepOutcome.continueAt (idx + 1)
    | none => StepOutcome.continueAt (idx + 1)

/-! ## Webhook request processing (`BluePrints/webhook/base.py`)

`BaseWebhookHandler.process_webhook` as instantiated by
`QQWebhookHandler`.  The environment record fixes the outcome of each
collaborator call (header validation, JSON parse, bot lookup, stored
secret, Ed25519 verification, signature generation); the outcome records
the HTTP status and which processing paths ran. -/

structure WebhookRequest where
  /-- `validate_request` verdict (X-Bot-Appid header present) -/
  validationOk : Bool
  /-- the body parses as JSON -/
  parseOk : Bool
  /-- the envelope's `op` field -/
  opCode : Int
  /-- `d.plain_token` and `d.event_ts` are both present -/
  handshakeOk : Bool
  /-- `get_bot_identifier` (the X-Bot-Appid header value) -/
  botIdentifier : Option String
  /-- `get_bot_manager` returned a manager -/
  managerAvailable : Bool
  /-- `find_bot_by_identifier` -/
  botId : Option Nat
  /-- `is_bot_enabled` -/
  botEnabled : Bool
  /-- `get_bot_secret` (`None` when the bot has no stored secret) -/
  secret : Option String
  /-- verdict of `verify_signature` for this request and secret -/
  signatureValid : Bool
  /-- outcome of `generate_verification_signature` -/
  verificationSignature : Option String
  deriving DecidableEq, Repr

structure WebhookOutcome where
  status : Nat
  /-- `verify_signature` was invoked -/
  signatureChecked : Bool
  /-- `handle_event` ran (the event reached an event processor) -/
  eventProcessed : Bool
  /-- `handle_verification_request` produced the handshake reply -/
  verificationHandled : Bool
  deriving DecidableEq, Repr

/-- `BaseWebhookHandler.handle_verification_request`. -/
def handleVerificationRequest (checked : Bool) (req : WebhookRequest) : WebhookOutcome :=
  if req.handshakeOk then
    match req.verificationSignature with
    | some _ => ⟨200, checked, false, true⟩
    | none => ⟨500, checked, false, false⟩
  else ⟨400, checked, false, false⟩

/-- `BaseWebhookHandler.process_webhook`: validation, parse, the op=13
verification branch (signature check guarded by `if secret and not
verify_signature(...)`), then the normal branch (bot lookup, enabled
check, the same guarded signature check, `handle_event`). -/
def processWebhook (req : WebhookRequest) : WebhookOutcome :=
  if !req.validationOk then ⟨400, false, false, false⟩
  else if !req.parseOk then ⟨400, false, false, false⟩
  else if req.opCode = 13 then
    if !strTruthy req.botIdentifier then ⟨400, false, false, false⟩
    else if !req.managerAvailable then ⟨500, false, false, false⟩
    else
      match req.botId with
      | none => ⟨404, false, false, false⟩
      | some _ =>
        if strTruthy req.secret && !req.signatureValid then ⟨401, true, false, false⟩
        else handleVerificationRequest (strTruthy req.secret) req
  else
    if !strTruthy req.botIdentifier then ⟨400, false, false, false⟩
    else if !req.managerAvailable then ⟨500, false, false, false⟩
    else
      match req.botId with
      | none => ⟨404, false, false, false⟩
      | some _ =>
        if !req.botEnabled then ⟨200, false, false, false⟩
        else if strTruthy req.secret && !req.signatureValid then ⟨401, true, false, false⟩
        else ⟨200, strTruthy req.secret, true, false⟩

/-! ## Supporting lemmas -/

theorem lookupCounter_append_self (st : List (String × Nat)) (msgId : String) (n : Nat)
    (h : lookupCounter st msgId = none) :
    lookupCounter (st ++ [(msgId, n)]) msgId = some n := by
  induction st with
  | nil => simp [lookupCounter]
  | cons a rest ih =>
    rw [lookupCounter] at h
    rw [List.cons_append, lookupCounter]
    split at h
    · exact absurd h (by simp)
    · rw [if_neg (by assumption)]
      exact ih h

theorem lookupCounter_setCounter (st : List (String × Nat)) (msgId : String) (n m : Nat)
    (h : lookupCounter st msgId = some n) :
    lookupCounter (setCounter st msgId m) msgId = some m := by
  induction st with
  | nil => simp [lookupCounter] at h
  | cons a rest ih =>
    rw [lookupCounter] at h
    rw [setCounter]
    split at h
    · rw [if_pos (by assumption), lookupCounter, if_pos (by assumption)]
    · rw [if_neg (by assumption), lookupCounter, if_neg (by assumption)]
      exact ih h

theorem lookupCounter_cleanup_append (st : List (String × Nat)) (msgId : String) (n : Nat)
    (h : lookupCounter st msgId = none) :
    lookupCounter (cleanupOldCounters (st ++ [(msgId, n)])) msgId = some n := by
  unfold cleanupOldCounters
  split
  · rename_i hlong
    cases st with
    | nil => simp at hlong
    | cons a rest =>
      rw [lookupCounter] at h
      split at h
      · exact absurd h (by simp)
      · rw [List.cons_append, List.tail_cons]
        exact lookupCounter_append_self rest msgId n h
  · exact lookupCounter_append_self st msgId n h

theorem seedLoop_reaches (n : Nat) : ∀ s : List Char, 32 ≤ 2 ^ n * s.length →
    ∃ r, seedLoop n s = some r ∧ 32 ≤ r.length := by
  induction n with
  | zero =>
    intro s h
    rw [pow_zero, one_mul] at h
    exact ⟨s, by rw [seedLoop, if_neg (by omega)], h⟩
  | succ n ih =>
    intro s h
    rw [seedLoop]
    split
    · refine ih (s ++ s) ?_
      rw [List.length_append]
      calc 32 ≤ 2 ^ (n + 1) * s.length := h
        _ = 2 ^ n * (s.length + s.length) := by ring
    · exact ⟨s, rfl, by omega⟩

theorem seedLoop_nil (fuel : Nat) : seedLoop fuel [] = none := by
  induction fuel with
  | zero => rw [seedLoop, if_pos (by simp)]
  | succ n ih => rw [seedLoop, if_pos (by simp), List.nil_append, ih]

theorem utf8Length_of_ascii (l : List Char) (h : ∀ c ∈ l, utf8Width c = 1) :
    utf8Length l = l.length := by
  induction l with
  | nil => rfl
  | cons c cs ih =>
    rw [utf8Length, List.map_cons, List.sum_cons, h c (by simp)]
    rw [utf8Length] at ih
    rw [ih fun x hx => h x (by simp [hx]), List.length_cons]
    omega

/-! ## Claim C3 — msg_seq monotonicity and pair uniqueness -/

/-- C3 counterexample: after 100 fresh msg_ids the counter for "A" is
evicted from the bounded map, so a later reply to "A" reuses msg_seq 1 and
the `(msg_id, msg_seq)` pair ("A", 1) is emitted twice in one process
lifetime — the pairs are not unique. -/
theorem msgseq_pair_reused : ¬ (runMsgSeq c3trace []).1.Nodup := by decide

/-- C3 (amended): per msg_id the sequence numbers 1, 2, 3, … are strictly
increasing, and `(msg_id, msg_seq)` pairs are not repeated, as long as the
msg_id's counter has not been evicted from the bounded map: a fresh id
starts at 1, a tracked id with counter n yields n + 1, and the id just
served is always still tracked, so an immediately following call yields a
strictly greater value. -/
theorem msgseq_monotone_while_tracked (st : List (String × Nat)) (msgId : String) :
    (lookupCounter st msgId = none → (getMsgSeq st msgId).1 = 1) ∧
    (∀ n, lookupCounter st msgId = some n →
      getMsgSeq st msgId = (n + 1, setCounter st msgId (n + 1))) ∧
    (∀ v st2, getMsgSeq st msgId = (v, st2) →
      lookupCounter st2 msgId = some v ∧ (getMsgSeq st2 msgId).1 = v + 1) := by
  refine ⟨fun h => by rw [getMsgSeq, h], fun n h => by rw [getMsgSeq, h], ?_⟩
  intro v st2 h
  cases hl : lookupCounter st msgId with
  | none =>
    rw [getMsgSeq, hl] at h
    obtain ⟨hv, hst⟩ := Prod.mk.injEq .. ▸ h
    have hlk := lookupCounter_cleanup_append st msgId 1 hl
    subst hst
    subst hv
    exact ⟨hlk, by rw [getMsgSeq, hlk]⟩
  | some n =>
    rw [getMsgSeq, hl] at h
    obtain ⟨hv, hst⟩ := Prod.mk.injEq .. ▸ h
    have hlk := lookupCounter_setCounter st msgId n (n + 1) hl
    subst hst
    subst hv
    exact ⟨hlk, by rw [getMsgSeq, hlk]⟩

/-- Witness for C3's amended theorem at a concrete state. -/
theorem msgseq_monotone_while_tracked_witness :
    (getMsgSeq [] "A").1 = 1 ∧ (getMsgSeq [("A", 1)] "A").1 = 2 := by
  have h := msgseq_monotone_while_tracked [] "A"
  exact ⟨h.1 rfl, ((h.2.2 1 [("A", 1)]) (by decide)).2⟩

/-! ## Claim C5 — token refresh policy -/

/-- C5: `ensure_authenticated` performs a blocking refresh (returning its
outcome) exactly when the token is absent, empty or at/past its expiry;
with a valid token inside the 60 s pre-expiry window it returns true and
starts a background refresh iff neither the `refreshing` flag nor a live
refresh thread indicates one in flight (single-flight); otherwise it
returns true and does nothing. -/
theorem ensure_authenticated_policy (s : TokenState) (now : Int) (authOutcome : Bool) :
    (isTokenValid s now = false →
      ensureAuthenticated s now authOutcome = (authOutcome, RefreshAction.syncRefresh)) ∧
    (isTokenValid s now = true → shouldRefreshToken s now = true →
      (ensureAuthenticated s now authOutcome).1 = true ∧
      ((ensureAuthenticated s now authOutcome).2 = RefreshAction.backgroundRefresh ↔
        s.tokenRefreshing = false ∧ s.refreshThreadAlive = false)) ∧
    (isTokenValid s now = true → shouldRefreshToken s now = false →
      ensureAuthenticated s now authOutcome = (true, RefreshAction.noAction)) := by
  refine ⟨fun h => by simp [ensureAuthenticated, h], fun hv hr => ?_, fun hv hr => by
    simp [ensureAuthenticated, hv, hr]⟩
  cases hf : s.tokenRefreshing <;> cases ht : s.refreshThreadAlive <;>
    simp [ensureAuthenticated, hv, hr, hf, ht]

/-- Witness for C5's theorem: a token valid until 150 observed at time 100
is inside the refresh window; with no refresh in flight a background
refresh starts. -/
theorem ensure_authenticated_policy_witness :
    (ensureAuthenticated ⟨some "t", 150, false, false⟩ 100 true).2 =
      RefreshAction.backgroundRefresh := by
  have h := (ensure_authenticated_policy ⟨some "t", 150, false, false⟩ 100 true).2.1
    (by decide) (by decide)
  exact h.2.mpr ⟨rfl, rfl⟩

/-! ## Claim C8 — condition branch selection -/

/-- C8: for a simple-mode condition step, a true result with an empty
`true_branch` advances to the next step; a false result with an empty
`false_branch` makes `should_break` true and halts the workflow; a
selected branch naming an existing step id jumps to that step's index. -/
theorem condition_branch_semantics (stepIds : List String) (idx : Nat)
    (res : Bool) (tb fb : String) (stopAfter : Bool) :
    ((res = true → tb = "" →
      engineIter stepIds idx (condExecuteSimple res tb fb stopAfter)
        (condShouldBreak (condExecuteSimple res tb fb stopAfter)) =
        StepOutcome.continueAt (idx + 1)) ∧
     (res = false → fb = "" →
      condShouldBreak (condExecuteSimple res tb fb stopAfter) = true ∧
      engineIter stepIds idx (condExecuteSimple res tb fb stopAfter)
        (condShouldBreak (condExecuteSimple res tb fb stopAfter)) =
        StepOutcome.halted)) ∧
    (∀ j, (res = true → tb ≠ "" → idxOfLast stepIds tb = some j →
      engineIter stepIds idx (condExecuteSimple res tb fb stopAfter)
        (condShouldBreak (condExecuteSimple res tb fb stopAfter)) =
        StepOutcome.continueAt j) ∧
      (res = false → fb ≠ "" → idxOfLast stepIds fb = some j →
      engineIter stepIds idx (condExecuteSimple res tb fb stopAfter)
        (condShouldBreak (condExecuteSimple res tb fb stopAfter)) =
        StepOutcome.continueAt j)) := by
  refine ⟨⟨fun hr hb => ?_, fun hr hb => ?_⟩, fun j => ⟨fun hr hb hj => ?_, fun hr hb hj => ?_⟩⟩
  · subst hr hb; simp [condExecuteSimple, condShouldBreak, engineIter]
  · subst hr hb; simp [condExecuteSimple, condShouldBreak, engineIter]
  · subst hr; simp [condExecuteSimple, condShouldBreak, engineIter, hb, hj]
  · subst hr; simp [condExecuteSimple, condShouldBreak, engineIter, hb, hj]

/-- Witness for C8's theorem: in the step list start/cond/reply/end, a true
condition at index 1 with `true_branch = "reply"` jumps to index 2. -/
theorem condition_branch_semantics_witness :
    engineIter ["start", "cond", "reply", "end"] 1
      (condExecuteSimple true "reply" "" false)
      (condShouldBreak (condExecuteSimple true "reply" "" false)) =
      StepOutcome.continueAt 2 := by
  have h := (condition_branch_semantics ["start", "cond", "reply", "end"] 1
    true "reply" "" false).2 2
  exact h.1 rfl (by decide) (by decide)

/-! ## Claim C9 — template rendering never fails -/

/-- C9: `render_template` is total: when the modelled Jinja engine renders
successfully the rendered string is returned, and on any failure the input
template string is returned unchanged. -/
theorem render_template_never_raises (vars globals : List (String × String))
    (t : List Char) :
    (∀ r, tryRender vars globals t = some r → renderTemplate vars globals t = r) ∧
    (tryRender vars globals t = none → renderTemplate vars globals t = t) := by
  constructor
  · intro r h; rw [renderTemplate, h]
  · intro h; rw [renderTemplate, h]

/-- Witness for C9's theorem: a template with one variable tag renders by
substitution, and a template with an unclosed tag falls back unchanged. -/
theorem render_template_never_raises_witness :
    renderTemplate [("user_id", "42")] [("api_key", "K")]
      ("Hello ".toList ++ [openBrace, openBrace] ++ " user_id ".toList ++
        [closeBrace, closeBrace]) = "Hello 42".toList ∧
    renderTemplate [("user_id", "42")] [("api_key", "K")]
      ("Oops ".toList ++ [openBrace, openBrace] ++ "x".toList) =
      "Oops ".toList ++ [openBrace, openBrace] ++ "x".toList := by
  constructor
  · exact (render_template_never_raises [("user_id", "42")] [("api_key", "K")] _).1 _
      (by decide)
  · exact (render_template_never_raises [("user_id", "42")] [("api_key", "K")] _).2
      (by decide)

/-! ## Claim C10 — Ed25519 seed derivation -/

/-- C10 counterexample: for the one-character secret "秘" (3 UTF-8 bytes
per character) the doubling loop terminates, but `seed[:32].encode('utf-8')`
is 96 bytes, not 32. -/
theorem seed_derivation_not_32_bytes :
    (deriveSeedChars 5 ['秘']).map utf8Length = some 96 ∧
    (deriveSeedChars 5 ['秘']).map utf8Length ≠ some 32 := by decide

/-- C10 (amended): for every non-empty secret the doubling loop
terminates (5 iterations always suffice) and the truncation yields exactly
32 characters, whose UTF-8 encoding is exactly 32 bytes when all of those
characters are one-byte (ASCII) characters; for the empty secret the loop
never terminates (it makes no progress at any fuel). -/
theorem seed_derivation_terminates (secret : List Char) (hne : secret ≠ []) :
    (∃ s, seedLoop 5 secret = some s ∧ deriveSeedChars 5 secret = some (s.take 32) ∧
      (s.take 32).length = 32 ∧
      ((∀ c ∈ s.take 32, utf8Width c = 1) → utf8Length (s.take 32) = 32)) ∧
    (∀ fuel, seedLoop fuel [] = none) := by
  have hlen : 1 ≤ secret.length := by
    cases secret with
    | nil => exact absurd rfl hne
    | cons a l => simp
  obtain ⟨r, hr, hrlen⟩ := seedLoop_reaches 5 secret (by
    have : (32 : Nat) = 2 ^ 5 * 1 := by norm_num
    calc (32 : Nat) = 2 ^ 5 * 1 := this
      _ ≤ 2 ^ 5 * secret.length := by
        exact Nat.mul_le_mul_left _ hlen)
  have htake : (r.take 32).length = 32 := by
    rw [List.length_take]
    omega
  refine ⟨⟨r, hr, by rw [deriveSeedChars, hr, Option.map_some'], htake, ?_⟩, seedLoop_nil⟩
  intro hascii
  rw [utf8Length_of_ascii _ hascii, htake]

/-- Witness for C10's amended theorem at the secret "abc". -/
theorem seed_derivation_terminates_witness :
    ∃ s, seedLoop 5 "abc".toList = some s ∧
      deriveSeedChars 5 "abc".toList = some (s.take 32) ∧
      (s.take 32).length = 32 ∧
      ((∀ c ∈ s.take 32, utf8Width c = 1) → utf8Length (s.take 32) = 32) :=
  (seed_derivation_terminates "abc".toList (by decide)).1

/-! ## Claim C2 — webhook event deduplication -/

/-- C2 counterexample: the dedup key embeds the current calendar date, so
replaying the same event id 600 s later — well inside the 24 h TTL, with
the first key still unexpired — is processed a second time once the date
has rolled over from 20240101 to 20240102. -/
theorem dedup_misses_date_rollover :
    (handleEventDedup [] 0 "20240101" (some "E1")).processed = true ∧
    kvGet (handleEventDedup [] 0 "20240101" (some "E1")).store 600
      (dedupKey "20240101" "E1") = some "true" ∧
    (handleEventDedup (handleEventDedup [] 0 "20240101" (some "E1")).store
      600 "20240102" (some "E1")).duplicate = false ∧
    (handleEventDedup (handleEventDedup [] 0 "20240101" (some "E1")).store
      600 "20240102" (some "E1")).processed = true := by decide

/-- C2 (amended): for a non-empty event id and a fixed calendar date, the
first delivery is processed and records `qq_event_dedup:<date>:<id>` with a
24 h expiry before routing, and a replay on the same date before that
expiry is answered `duplicate`, is not processed, and leaves the store
unchanged; a replay after the date has rolled over computes a different
key and is processed again. -/
theorem dedup_same_day (st : KVStore) (now now2 : Int) (today eid : String)
    (hid : eid ≠ "") (hnew : kvGet st now (dedupKey today eid) = none)
    (h2 : now2 < now + 86400) :
    (handleEventDedup st now today (some eid)).duplicate = false ∧
    (handleEventDedup st now today (some eid)).processed = true ∧
    kvGet (handleEventDedup st now today (some eid)).store now2 (dedupKey today eid) =
      some "true" ∧
    (handleEventDedup (handleEventDedup st now today (some eid)).store now2 today
      (some eid)).duplicate = true ∧
    (handleEventDedup (handleEventDedup st now today (some eid)).store now2 today
      (some eid)).processed = false ∧
    (handleEventDedup (handleEventDedup st now today (some eid)).store now2 today
      (some eid)).store = (handleEventDedup st now today (some eid)).store := by
  have htr : strTruthy (some eid) = true := by simp [strTruthy, hid]
  have hdup : isDuplicateEvent st now today eid = false := by
    rw [isDuplicateEvent, hnew]; rfl
  have heq : handleEventDedup st now today (some eid) =
      ⟨false, true, recordEvent st now today eid⟩ := by
    simp [handleEventDedup, htr, hdup]
  have hget : kvGet (recordEvent st now today eid) now2 (dedupKey today eid) =
      some "true" := by
    rw [recordEvent, kvSet, kvGet]
    simp [List.find?, h2]
  have hdup2 : isDuplicateEvent (recordEvent st now today eid) now2 today eid = true := by
    rw [isDuplicateEvent, hget]; rfl
  have heq2 : handleEventDedup (recordEvent st now today eid) now2 today (some eid) =
      ⟨true, false, recordEvent st now today eid⟩ := by
    simp [handleEventDedup, htr, hdup2]
  rw [heq]
  exact ⟨rfl, rfl, hget, by rw [heq2], by rw [heq2], by rw [heq2]⟩

/-- Witness for C2's amended theorem on an empty store at date 20250101. -/
theorem dedup_same_day_witness :
    (handleEventDedup (handleEventDedup [] 0 "20250101" (some "E9")).store 100 "20250101"
      (some "E9")).duplicate = true ∧
    (handleEventDedup (handleEventDedup [] 0 "20250101" (some "E9")).store 100 "20250101"
      (some "E9")).processed = false := by
  have h := dedup_same_day [] 0 100 "20250101" "E9" (by decide) (by decide) (by decide)
  exact ⟨h.2.2.2.1, h.2.2.2.2.1⟩

/-! ## Claim C4 — dispatched workflow selection -/

def c4db : List CachedWorkflow :=
  [⟨1, true, "message", ["group_increase"], []⟩]

def c4subs : List Subscription := [⟨7, 1, true⟩]

/-- C4 counterexample: a message event carries no sub-kind name, so the
cache skips the event-filter check entirely and dispatches a workflow
whose `event_filter` is the non-empty list ["group_increase"], while the
claimed set requires the (absent) sub-kind name to be contained in it. -/
theorem dispatch_set_not_claimed :
    dispatchedWorkflows c4db c4subs "message" (some "qq") (some 7) "" ≠
      claimedDispatchSet c4db c4subs "message" "qq" 7 "" := by decide

/-- Conditional dispatch predicate: the filters of
`get_workflows_by_trigger` written declaratively — the event filter applies
only to a non-empty sub-kind name, the subscription check only to a truthy
owner id, and the protocol allowlist only to a truthy protocol. -/
def condDispatchPred (subs : List Subscription) (triggerType : String)
    (protocol : Option String) (userId : Option Nat) (eventName : String)
    (w : CachedWorkflow) : Bool :=
  w.enabled && w.triggerType = triggerType
    && (eventName = "" || w.eventFilter.isEmpty || w.eventFilter.contains eventName)
    && (!natTruthy userId || (subscribedWorkflowIds subs userId).contains w.wfId)
    && (!strTruthy protocol || w.protocols.isEmpty
        || w.protocols.contains (protocol.getD ""))

/-- C4 (amended): the dispatched set is exactly the enabled workflows with
the matching trigger type that pass the three conditional filters: the
event filter when the event has a sub-kind name, the owner subscription
when the owner is known, and the protocol allowlist when the protocol is
known. -/
theorem dispatch_filters_conditional (db : List CachedWorkflow)
    (subs : List Subscription) (trig : String) (proto : Option String)
    (uid : Option Nat) (ename : String) :
    dispatchedWorkflows db subs trig proto uid ename =
      db.filter (condDispatchPred subs trig proto uid ename) := by
  unfold dispatchedWorkflows getWorkflowsByTrigger loadCache
  rw [List.filter_filter]
  congr 1
  funext w
  simp only [matchesTrigger, condDispatchPred]
  by_cases h1 : w.triggerType = trig <;>
    by_cases h2 : ename = "" <;>
      by_cases h3 : w.eventFilter.isEmpty = true <;>
        by_cases h4 : w.eventFilter.contains ename = true <;>
          by_cases h5 : natTruthy uid = true <;>
            by_cases h6 : (subscribedWorkflowIds subs uid).contains w.wfId = true <;>
              by_cases h7 : strTruthy proto = true <;>
                by_cases h8 : w.protocols.isEmpty = true <;>
                  by_cases h9 : w.protocols.contains (proto.getD "") = true <;>
                    simp_all

/-! ## Claim C6 — WebSocket API correlation -/

/-- Frames that would be deposited into the slot for `echo`. -/
def depositsTo (echo : String) (f : WSFrame) : Bool :=
  (f.status.isSome || f.retcode.isSome) && strTruthy f.echo && f.echo.getD "" = echo

theorem corrLookup_insert_self (m : CorrMap) (k : String) (f : WSFrame) :
    corrLookup (corrInsert m k f) k = some f := by
  induction m with
  | nil => simp [corrInsert, corrLookup]
  | cons a rest ih =>
    rw [corrInsert]
    split
    · rw [corrLookup, if_pos (by assumption)]
    · rw [corrLookup, if_neg (by assumption)]
      exact ih

theorem corrLookup_erase_self (m : CorrMap) (k : String) :
    corrLookup (corrErase m k) k = none := by
  induction m with
  | nil => rfl
  | cons a rest ih =>
    rw [corrErase, List.filter]
    split
    · rw [corrLookup, if_neg (by simp_all)]
      exact ih
    · exact ih

theorem corrLookup_insert_ne (m : CorrMap) (k k2 : String) (f : WSFrame)
    (h : k ≠ k2) : corrLookup (corrInsert m k f) k2 = corrLookup m k2 := by
  induction m with
  | nil => simp [corrInsert, corrLookup, h]
  | cons a rest ih =>
    rw [corrInsert]
    split
    · rename_i ha
      rw [corrLookup, corrLookup, if_neg (ha ▸ h), if_neg (ha ▸ h)]
    · rw [corrLookup, corrLookup]
      split
      · rfl
      · exact ih

theorem onMessageCorr_no_deposit (m : CorrMap) (echo : String) (f : WSFrame)
    (h : depositsTo echo f = false) :
    corrLookup (onMessageCorr m f) echo = corrLookup m echo := by
  rw [onMessageCorr]
  split
  · rename_i hapi
    split
    · rename_i htr
      refine corrLookup_insert_ne m (f.echo.getD "") echo f ?_
      intro hk
      rw [depositsTo, hapi, htr, hk] at h
      simp at h
    · rfl
  · rfl

theorem foldl_onMessageCorr_no_deposit (echo : String) :
    ∀ (batch : List WSFrame) (m : CorrMap),
      (∀ f ∈ batch, depositsTo echo f = false) →
      corrLookup (batch.foldl onMessageCorr m) echo = corrLookup m echo := by
  intro batch
  induction batch with
  | nil => intro m _; rfl
  | cons f rest ih =>
    intro m h
    rw [List.foldl_cons, ih (onMessageCorr m f) fun g hg => h g (by simp [hg])]
    exact onMessageCorr_no_deposit m echo f (h f (by simp))

theorem callApiLoop_timeout (echo : String) :
    ∀ (fuel : Nat) (m : CorrMap) (arrivals : List (List WSFrame)),
      corrLookup m echo = none →
      (∀ batch ∈ arrivals, ∀ f ∈ batch, depositsTo echo f = false) →
      (callApiLoop echo m arrivals fuel).1 = none ∧
      corrLookup (callApiLoop echo m arrivals fuel).2 echo = none := by
  intro fuel
  induction fuel with
  | zero => intro m arrivals hm _; exact ⟨rfl, corrLookup_erase_self m echo⟩
  | succ n ih =>
    intro m arrivals hm harr
    rw [callApiLoop, hm]
    refine ih _ arrivals.tail ?_ ?_
    · rw [foldl_onMessageCorr_no_deposit echo (arrivals.headD []) m ?_]
      · exact hm
      · intro f hf
        cases arrivals with
        | nil => simp at hf
        | cons b bs => exact harr b (by simp) f (by simpa using hf)
    · intro batch hb f hf
      exact harr batch (List.tail_subset arrivals hb) f hf

/-- C6 counterexample: after the 5 s poll budget is exhausted the call
returns null and the echo slot is purged, but a response frame with that
echo arriving afterwards is deposited back into the correlation map by
`_on_message` — it is retained there (never consumed), not discarded. -/
theorem ws_late_response_retained :
    callApi "X" [] [] = (none, []) ∧
    onMessageCorr (callApi "X" [] []).2 ⟨some "X", some "ok", none, some "d"⟩ =
      [("X", ⟨some "X", some "ok", none, some "d"⟩)] := by decide

/-- C6 (amended): a correlated response with `status == "ok"` or a
`retcode` of 0 (also when absent) yields its `data` and the slot is
popped; any other correlated response yields null with the slot popped; if
no frame for the echo arrives during the 50 polling rounds the call yields
null and the echo slot is absent from the map; and a response frame with a
truthy echo that arrives after the timeout is deposited back into the
correlation map (retained, not discarded). -/
theorem ws_call_correlation (echo : String) (m : CorrMap)
    (arrivals : List (List WSFrame)) :
    (∀ resp, corrLookup m echo = some resp →
      ((resp.status = some "ok" ∨ resp.retcode.getD 0 = 0) →
        callApi echo m arrivals = (resp.data, corrErase m echo)) ∧
      (resp.status ≠ some "ok" → resp.retcode.getD 0 ≠ 0 →
        callApi echo m arrivals = (none, corrErase m echo))) ∧
    (corrLookup m echo = none →
      (∀ batch ∈ arrivals, ∀ f ∈ batch, depositsTo echo f = false) →
      (callApi echo m arrivals).1 = none ∧
      corrLookup (callApi echo m arrivals).2 echo = none) ∧
    (∀ f : WSFrame, (f.status.isSome || f.retcode.isSome) = true →
      strTruthy f.echo = true →
      corrLookup (onMessageCorr (callApi echo m arrivals).2 f) (f.echo.getD "") =
        some f) := by
  refine ⟨fun resp hresp => ⟨fun hok => ?_, fun hs hr => ?_⟩,
    fun hm harr => ?_, fun f hapi htr => ?_⟩
  · have hcond : (decide (resp.status = some "ok") || decide (resp.retcode.getD 0 = 0)) =
        true := by rcases hok with h | h <;> simp [h]
    rw [callApi, show (50 : Nat) = 49 + 1 from rfl, callApiLoop]
    simp only [hresp, hcond, if_true]
  · have hcond : (decide (resp.status = some "ok") || decide (resp.retcode.getD 0 = 0)) =
        false := by simp [hs, hr]
    rw [callApi, show (50 : Nat) = 49 + 1 from rfl, callApiLoop]
    simp only [hresp, hcond, Bool.false_eq_true, if_false]
  · exact callApiLoop_timeout echo 50 m arrivals hm harr
  · rw [onMessageCorr, if_pos hapi, if_pos htr]
    exact corrLookup_insert_self _ _ f

/-- Witness for C6's amended theorem: a pre-correlated ok-response yields
its data; an empty arrival schedule times out with a clean slot; a late
frame is retained. -/
theorem ws_call_correlation_witness :
    callApi "X" [("X", ⟨some "X", some "ok", none, some "payload"⟩)] [] =
      (some "payload", []) ∧
    (callApi "Y" [] []).1 = none ∧
    corrLookup (onMessageCorr (callApi "Y" [] []).2
      ⟨some "Y", some "failed", some 100, none⟩) "Y" =
      some ⟨some "Y", some "failed", some 100, none⟩ := by
  refine ⟨?_, ?_, ?_⟩
  · exact ((ws_call_correlation "X" [("X", ⟨some "X", some "ok", none, some "payload"⟩)]
      []).1 ⟨some "X", some "ok", none, some "payload"⟩ (by decide)).1 (Or.inl rfl)
  · exact ((ws_call_correlation "Y" [] []).2.1 (by decide) (by simp)).1
  · exact (ws_call_correlation "Y" [] []).2.2 ⟨some "Y", some "failed", some 100, none⟩
      (by decide) (by decide)

/-! ## Claim C1 — webhook signature gating -/

def c1req : WebhookRequest :=
  ⟨true, true, 0, false, some "10001", true, some 5, true, none, false, none⟩

/-- C1 counterexample: when the bot's stored secret is absent the guard
`if secret and not self.verify_signature(...)` skips verification
entirely, and the event is handed to an event processor without any
Ed25519 check having run. -/
theorem webhook_unverified_processing :
    (processWebhook c1req).eventProcessed = true ∧
    (processWebhook c1req).signatureChecked = false := by decide

/-- C1 (amended): whenever the bot has a truthy stored secret, a request
can only reach an event processor or the callback-verification reply after
`verify_signature` has run and succeeded; and whenever verification runs
and fails the response is HTTP 401 and neither processing path executes.
If the stored secret is absent or empty, verification is skipped and the
request is processed without it. -/
theorem webhook_signature_gate (req : WebhookRequest) :
    (strTruthy req.secret = true →
      ((processWebhook req).eventProcessed = true ∨
        (processWebhook req).verificationHandled = true) →
      (processWebhook req).signatureChecked = true ∧ req.signatureValid = true) ∧
    ((processWebhook req).signatureChecked = true → req.signatureValid = false →
      (processWebhook req).status = 401 ∧ (processWebhook req).eventProcessed = false ∧
      (processWebhook req).verificationHandled = false) := by
  rcases req with ⟨va, pa, op, hsk, bi, ma, bid, be, sec, sv, vsg⟩
  cases bid <;> cases vsg <;>
    (simp only [processWebhook, handleVerificationRequest]; split_ifs <;> simp_all)

def c1secureReq : WebhookRequest :=
  ⟨true, true, 0, false, some "10001", true, some 5, true, some "sec", false, none⟩

/-- Witness for C1's amended theorem: with a stored secret and an invalid
signature the response is 401 and the event is never processed. -/
theorem webhook_signature_gate_witness :
    (processWebhook c1secureReq).status = 401 ∧
    (processWebhook c1secureReq).eventProcessed = false := by
  have h := (webhook_signature_gate c1secureReq).2 (by decide) rfl
  exact ⟨h.1, h.2.1⟩

/-! ## CQ-code messages (`Adapters/onebot/v11/message.py`)

Strings are handled as character lists.  `escape` chains Python
`str.replace` calls whose patterns are single characters, and `unescape`
chains `str.replace` calls whose patterns are the five-character escape
codes; both are modelled by leftmost non-overlapping replacement exactly
as `str.replace` performs it. -/

/-- Python `s.replace(p, rep)` for a one-character pattern `p`. -/
def replaceChar (p : Char) (rep : List Char) : List Char → List Char
  | [] => []
  | c :: cs => (if c = p then rep else [c]) ++ replaceChar p rep cs

/-- Python `s.replace(p1p2p3p4p5, rep)` for a five-character pattern:
leftmost non-overlapping occurrences are replaced. -/
def replace5 (p1 p2 p3 p4 p5 : Char) (rep : List Char) : List Char → List Char
  | c1 :: c2 :: c3 :: c4 :: c5 :: cs =>
    if c1 = p1 ∧ c2 = p2 ∧ c3 = p3 ∧ c4 = p4 ∧ c5 = p5 then
      rep ++ replace5 p1 p2 p3 p4 p5 rep cs
    else c1 :: replace5 p1 p2 p3 p4 p5 rep (c2 :: c3 :: c4 :: c5 :: cs)
  | cs => cs

/-- `escape(s, escape_comma=...)`: `&`, `[`, `]` and (optionally) `,` are
replaced by their escape codes, in that order. -/
def escape (escapeComma : Bool) (s : List Char) : List Char :=
  let s1 := replaceChar '&' ['&', 'a', 'm', 'p', ';'] s
  let s2 := replaceChar '[' ['&', '#', '9', '1', ';'] s1
  let s3 := replaceChar ']' ['&', '#', '9', '3', ';'] s2
  if escapeComma then replaceChar ',' ['&', '#', '4', '4', ';'] s3 else s3

/-- `unescape(s)`: the four escape codes are decoded, in the source's
order (`&#44;`, `&#91;`, `&#93;`, `&amp;`). -/
def unescape (s : List Char) : List Char :=
  replace5 '&' 'a' 'm' 'p' ';' ['&']
    (replace5 '&' '#' '9' '3' ';' [']']
      (replace5 '&' '#' '9' '1' ';' ['[']
        (replace5 '&' '#' '4' '4' ';' [','] s)))

/-- `OneBotMessageSegment`: a tagged type with a data dict (all modelled
data values are strings; the source's `if v is not None` filter never
drops one of them). -/
structure OneBotSegment where
  ty : String
  data : List (String × String)
  deriving DecidableEq, Repr

/-- `OneBotMessageSegment.text`. -/
def textSeg (t : String) : OneBotSegment := ⟨"text", [("text", t)]⟩

/-- `OneBotMessageSegment.image`. -/
def imageSeg (file : String) : OneBotSegment := ⟨"image", [("file", file)]⟩

/-- `OneBotMessageSegment.at` (the user id is already `str(user_id)`). -/
def atSeg (userId : String) : OneBotSegment := ⟨"at", [("qq", userId)]⟩

/-- `OneBotMessageSegment.face`. -/
def faceSeg (i : Int) : OneBotSegment := ⟨"face", [("id", toString i)]⟩

/-- `OneBotMessageSegment.reply`. -/
def replySeg (i : Int) : OneBotSegment := ⟨"reply", [("id", toString i)]⟩

/-- Python `",".join(...)`. -/
def joinComma : List (List Char) → List Char
  | [] => []
  | [x] => x
  | x :: xs => x ++ ',' :: joinComma xs

/-- `OneBotMessageSegment.__str__`: a text segment is its escaped text
(commas unescaped); any other segment is `[CQ:type,k1=v1,...]` with
comma-escaped values, the comma after the type present only when the
data dict is non-empty. -/
def segStr (g : OneBotSegment) : List Char :=
  if g.ty = "text" then escape false ((lookupAssoc g.data "text").getD "").toList
  else
    let params := joinComma (g.data.map fun kv => kv.1.toList ++ '=' :: escape true kv.2.toList)
    '[' :: 'C' :: 'Q' :: ':' :: g.ty.toList ++
      (if params = [] then [] else ',' :: params) ++ [']']

/-- `OneBotMessage.__str__`: `"".join(str(seg) for seg in self)`. -/
def serializeMsg : List OneBotSegment → List Char
  | [] => []
  | g :: rest => segStr g ++ serializeMsg rest

/-- Character class `[a-zA-Z0-9-_.]` of the CQ-code regex (type and
parameter-key characters). -/
def isCQNameChar (c : Char) : Bool :=
  c.isAlphanum || c = '-' || c = '_' || c = '.'

/-- Character class `[^,\]]` of the CQ-code regex (parameter values). -/
def isCQValChar (c : Char) : Bool :=
  !(c = ',') && !(c = ']')

/-- Parameter part `(?:,[a-zA-Z0-9-_.]+=[^,\]]*)*,?\]` of the CQ-code
regex, scanning greedily from `cs`: successful iterations append their raw
characters to `acc` (the regex group `params`), an optional trailing comma
followed by `]` closes the match, and anything else fails the whole match.
Returns the raw `params` group and the text after `]`; the fuel is one
step per iteration and never runs out when it starts at `cs.length + 1`. -/
def closeAfterComma (acc : List Char) : List Char → Option (List Char × List Char)
  | c :: rest => if c = ']' then some (acc, rest) else none
  | [] => none

def parseParamsF : Nat → List Char → List Char → Option (List Char × List Char)
  | 0, _, _ => none
  | fuel + 1, cs, acc =>
    match cs with
    | [] => none
    | c :: cs1 =>
      if c = ',' then
        let k := cs1.takeWhile isCQNameChar
        let cs2 := cs1.dropWhile isCQNameChar
        if k = [] then closeAfterComma acc cs1
        else
          match cs2 with
          | c2 :: cs3 =>
            if c2 = '=' then
              parseParamsF fuel (cs3.dropWhile isCQValChar)
                (acc ++ ',' :: (k ++ '=' :: cs3.takeWhile isCQValChar))
            else closeAfterComma acc cs1
          | [] => closeAfterComma acc cs1
      else if c = ']' then some (acc, cs1)
      else none

/-- Match of the CQ-code regex at an opening bracket: `cs` holds the
characters after `[`; on success returns the `type` group, the raw
`params` group and the remaining text after the closing `]`. -/
def tryCQ (cs : List Char) : Option (String × List Char × List Char) :=
  match cs with
  | c1 :: c2 :: c3 :: cs1 =>
    if c1 = 'C' ∧ c2 = 'Q' ∧ c3 = ':' then
      let ty := cs1.takeWhile isCQNameChar
      let cs2 := cs1.dropWhile isCQNameChar
      if ty = [] then none
      else (parseParamsF (cs2.length + 1) cs2 []).map fun p => (String.mk ty, p.1, p.2)
    else none
  | _ => none

/-- Python dict assignment `data_dict[k] = v` (overwrite or append). -/
def dataInsert : List (String × String) → String → String → List (String × String)
  | [], k, v => [(k, v)]
  | (k', v') :: rest, k, v =>
    if k' = k then (k', v) :: rest else (k', v') :: dataInsert rest k v

/-- Python `cs.split(',')`. -/
def splitOnComma : List Char → List (List Char)
  | [] => [[]]
  | c :: rest =>
    if c = ',' then [] :: splitOnComma rest
    else
      match splitOnComma rest with
      | [] => [[c]]
      | p :: ps => (c :: p) :: ps

/-- Python `item.split('=', 1)` when `'=' in item`. -/
def splitFirstEq : List Char → Option (List Char × List Char)
  | [] => none
  | c :: rest =>
    if c = '=' then some ([], rest)
    else (splitFirstEq rest).map fun p => (c :: p.1, p.2)

/-- The `data_dict` loop of `OneBotMessage._construct`: strip the leading
comma from the raw `params` group, split on commas, and for every item
containing `=` record `key.strip() -> unescape(value)`. -/
def buildData (params : List Char) : List (String × String) :=
  if params = [] then []
  else
    (splitOnComma (params.dropWhile (fun c => c = ','))).foldl
      (fun d item =>
        match splitFirstEq item with
        | some (k, v) => dataInsert d (String.mk (stripChars k)) (String.mk (unescape v))
        | none => d) []

/-- Segment built from a CQ-code match. -/
def mkCQSeg (ty : String) (params : List Char) : OneBotSegment :=
  ⟨ty, buildData params⟩

/-- Text accumulated between CQ codes (held reversed): dropped when empty,
otherwise unescaped into a text segment. -/
def flushText (acc : List Char) : List OneBotSegment :=
  if acc = [] then [] else [⟨"text", [("text", String.mk (unescape acc.reverse))]⟩]

/-- Scanner of `OneBotMessage._construct`: leftmost CQ-code matches (which
always start at `[`) interleaved with text runs; the fuel is one step per
consumed character and never runs out when it starts above the input
length. -/
def parseAuxF : Nat → List Char → List Char → List OneBotSegment
  | 0, _, acc => flushText acc
  | _ + 1, [], acc => flushText acc
  | fuel + 1, c :: rest, acc =>
    if c = '[' then
      match tryCQ rest with
      | some (ty, params, rest') =>
        flushText acc ++ mkCQSeg ty params :: parseAuxF fuel rest' []
      | none => parseAuxF fuel rest (c :: acc)
    else parseAuxF fuel rest (c :: acc)

/-- `OneBotMessage._construct`. -/
def parseMsg (cs : List Char) : List OneBotSegment :=
  parseAuxF (cs.length + 1) cs []

/-- Segments producible by the five modelled constructors. -/
def canonSeg (g : OneBotSegment) : Bool :=
  match g.data with
  | [(k, _)] =>
    (g.ty = "text" && k = "text") || (g.ty = "image" && k = "file")
      || (g.ty = "at" && k = "qq") || (g.ty = "face" && k = "id")
      || (g.ty = "reply" && k = "id")
  | _ => false

/-- Canonical messages: constructor-shaped segments, no empty text
segment, no two adjacent text segments. -/
def canonMsg : List OneBotSegment → Bool
  | [] => true
  | [g] => canonSeg g && (!(g.ty = "text") || (lookupAssoc g.data "text").getD "" ≠ "")
  | g1 :: g2 :: rest =>
    canonSeg g1 && (!(g1.ty = "text") || (lookupAssoc g1.data "text").getD "" ≠ "")
      && (!(g1.ty = "text") || !(g2.ty = "text")) && canonMsg (g2 :: rest)

/-- The head of the message (if any) is not a text segment. -/
def headNotText : List OneBotSegment → Bool
  | [] => true
  | g :: _ => !(g.ty = "text")

/-! ### Escape/unescape round trip

`escape` is a per-character encoding: every character maps independently
to its escape code (the chained single-character replacements commute with
this view), and `unescape` decodes the four codes one pattern at a time.
The key fact is that in an escaped string the pattern character `&` occurs
only at the head of a complete 5-character code, so each `replace5` pass
rewrites exactly the blocks equal to its pattern. -/

/-- Per-character view of `escape`. -/
def encChar (b : Bool) (c : Char) : List Char :=
  if c = '&' then ['&', 'a', 'm', 'p', ';']
  else if c = '[' then ['&', '#', '9', '1', ';']
  else if c = ']' then ['&', '#', '9', '3', ';']
  else if b ∧ c = ',' then ['&', '#', '4', '4', ';']
  else [c]

/-- Concatenation of a per-character encoding over a string. -/
def encApply (enc : Char → List Char) : List Char → List Char
  | [] => []
  | c :: cs => enc c ++ encApply enc cs

theorem replaceChar_append (p : Char) (rep : List Char) :
    ∀ x y, replaceChar p rep (x ++ y) = replaceChar p rep x ++ replaceChar p rep y := by
  intro x y
  induction x with
  | nil => rfl
  | cons c cs ih => rw [List.cons_append, replaceChar, replaceChar, ih, List.append_assoc]

theorem escape_append (b : Bool) (x y : List Char) :
    escape b (x ++ y) = escape b x ++ escape b y := by
  cases b <;> simp [escape, replaceChar_append]

theorem escape_nil (b : Bool) : escape b [] = [] := by cases b <;> rfl

theorem escape_single (b : Bool) (c : Char) : escape b [c] = encChar b c := by
  cases b <;> by_cases h1 : c = '&' <;> by_cases h2 : c = '[' <;>
    by_cases h3 : c = ']' <;> by_cases h4 : c = ',' <;>
      first
        | (subst_vars; decide)
        | simp_all [escape, replaceChar, encChar]

theorem escape_cons (b : Bool) (c : Char) (cs : List Char) :
    escape b (c :: cs) = encChar b c ++ escape b cs := by
  have h : c :: cs = [c] ++ cs := rfl
  rw [h, escape_append, escape_single]

theorem escape_eq_encApply (b : Bool) (s : List Char) :
    escape b s = encApply (encChar b) s := by
  induction s with
  | nil => rw [escape_nil]; rfl
  | cons c cs ih => rw [escape_cons, encApply, ih]

theorem replace5_cons5 (p1 p2 p3 p4 p5 : Char) (rep : List Char)
    (c1 c2 c3 c4 c5 : Char) (t : List Char) :
    replace5 p1 p2 p3 p4 p5 rep (c1 :: c2 :: c3 :: c4 :: c5 :: t) =
      if c1 = p1 ∧ c2 = p2 ∧ c3 = p3 ∧ c4 = p4 ∧ c5 = p5 then
        rep ++ replace5 p1 p2 p3 p4 p5 rep t
      else c1 :: replace5 p1 p2 p3 p4 p5 rep (c2 :: c3 :: c4 :: c5 :: t) := rfl

theorem replace5_short (p1 p2 p3 p4 p5 : Char) (rep : List Char) :
    ∀ cs : List Char, cs.length < 5 → replace5 p1 p2 p3 p4 p5 rep cs = cs := by
  intro cs h
  rcases cs with _ | ⟨a1, _ | ⟨a2, _ | ⟨a3, _ | ⟨a4, _ | ⟨a5, rest⟩⟩⟩⟩⟩ <;>
    first
      | rfl
      | (simp only [List.length_cons] at h; omega)

theorem replace5_match (p1 p2 p3 p4 p5 : Char) (rep t : List Char) :
    replace5 p1 p2 p3 p4 p5 rep (p1 :: p2 :: p3 :: p4 :: p5 :: t) =
      rep ++ replace5 p1 p2 p3 p4 p5 rep t := by
  simp [replace5]

theorem replace5_skip (p1 p2 p3 p4 p5 : Char) (rep : List Char) :
    ∀ x t, p1 ∉ x →
      replace5 p1 p2 p3 p4 p5 rep (x ++ t) = x ++ replace5 p1 p2 p3 p4 p5 rep t := by
  intro x
  induction x with
  | nil => intro t _; rfl
  | cons c x2 ih =>
    intro t hx
    simp only [List.mem_cons, not_or] at hx
    obtain ⟨hc, hx2⟩ := hx
    rw [List.cons_append]
    rcases h5 : x2 ++ t with _ | ⟨a1, _ | ⟨a2, _ | ⟨a3, _ | ⟨a4, rest⟩⟩⟩⟩
    case nil | cons.nil | cons.cons.nil | cons.cons.cons.nil =>
      have ht : t.length < 5 := by
        have hle : t.length ≤ (x2 ++ t).length := by
          rw [List.length_append]; omega
        rw [h5] at hle
        simp only [List.length_cons, List.length_nil] at hle
        omega
      rw [replace5_short p1 p2 p3 p4 p5 rep t ht, List.cons_append, h5]
      exact replace5_short p1 p2 p3 p4 p5 rep _
        (by simp only [List.length_cons, List.length_nil]; omega)
    case cons.cons.cons.cons =>
      rw [replace5_cons5, if_neg fun hAnd => hc hAnd.1.symm, ← h5, ih t hx2,
        List.cons_append]

theorem replace5_encApply (p1 p2 p3 p4 p5 : Char) (rep : List Char)
    (enc enc2 : Char → List Char)
    (hgood : ∀ c, enc c = [p1, p2, p3, p4, p5] ∨ p1 ∉ enc c ∨
      ((enc c).length = 5 ∧ enc c ≠ [p1, p2, p3, p4, p5] ∧ p1 ∉ (enc c).drop 1))
    (henc2 : ∀ c, enc2 c = if enc c = [p1, p2, p3, p4, p5] then rep else enc c) :
    ∀ s, replace5 p1 p2 p3 p4 p5 rep (encApply enc s) = encApply enc2 s := by
  intro s
  induction s with
  | nil => rfl
  | cons c cs ih =>
    rw [encApply, encApply]
    rcases hgood c with hp | hp | ⟨h5, hne, hdrop⟩
    · rw [hp, henc2 c, if_pos hp]
      show replace5 p1 p2 p3 p4 p5 rep (p1 :: p2 :: p3 :: p4 :: p5 :: encApply enc cs) = _
      rw [replace5_match, ih]
    · have hne : enc c ≠ [p1, p2, p3, p4, p5] := fun he => hp (he ▸ by simp)
      rw [replace5_skip _ _ _ _ _ _ _ _ hp, ih, henc2 c, if_neg hne]
    · rcases hb : enc c with _ | ⟨b1, _ | ⟨b2, _ | ⟨b3, _ | ⟨b4, _ | ⟨b5, btail⟩⟩⟩⟩⟩
      · rw [hb] at h5; simp at h5
      · rw [hb] at h5; simp at h5
      · rw [hb] at h5; simp at h5
      · rw [hb] at h5; simp at h5
      · rw [hb] at h5; simp at h5
      · have hbt : btail = [] := by
          rw [hb] at h5
          simp only [List.length_cons] at h5
          exact List.eq_nil_of_length_eq_zero (by omega)
        subst hbt
        have hdrop2 : p1 ∉ [b2, b3, b4, b5] := by
          have hd : (enc c).drop 1 = [b2, b3, b4, b5] := by simp [hb]
          rw [hd] at hdrop
          exact hdrop
        have hcond : ¬ (b1 = p1 ∧ b2 = p2 ∧ b3 = p3 ∧ b4 = p4 ∧ b5 = p5) := by
          intro hAnd
          apply hne
          rw [hb, hAnd.1, hAnd.2.1, hAnd.2.2.1, hAnd.2.2.2.1, hAnd.2.2.2.2]
        simp only [List.cons_append, List.nil_append]
        rw [replace5_cons5, if_neg hcond]
        have hskip := replace5_skip p1 p2 p3 p4 p5 rep [b2, b3, b4, b5]
          (encApply enc cs) hdrop2
        simp only [List.cons_append, List.nil_append] at hskip
        rw [hskip, ih, henc2 c, if_neg hne, hb]
        rfl

/-- Per-character encoding after the `&#44;` codes are decoded. -/
def encD1 (c : Char) : List Char :=
  if c = '&' then ['&', 'a', 'm', 'p', ';']
  else if c = '[' then ['&', '#', '9', '1', ';']
  else if c = ']' then ['&', '#', '9', '3', ';']
  else [c]

/-- Per-character encoding after `&#44;` and `&#91;` are decoded. -/
def encD2 (c : Char) : List Char :=
  if c = '&' then ['&', 'a', 'm', 'p', ';']
  else if c = ']' then ['&', '#', '9', '3', ';']
  else [c]

/-- Per-character encoding with only `&amp;` left to decode. -/
def encD3 (c : Char) : List Char :=
  if c = '&' then ['&', 'a', 'm', 'p', ';'] else [c]

theorem encApply_singleton : ∀ s : List Char, encApply (fun c => [c]) s = s := by
  intro s
  induction s with
  | nil => rfl
  | cons c cs ih => rw [encApply, ih]; rfl

theorem encGood1 (b : Bool) (c : Char) :
    encChar b c = ['&', '#', '4', '4', ';'] ∨ '&' ∉ encChar b c ∨
      ((encChar b c).length = 5 ∧ encChar b c ≠ ['&', '#', '4', '4', ';'] ∧
        '&' ∉ (encChar b c).drop 1) := by
  by_cases hA : c = '&'
  · subst hA; cases b <;> exact Or.inr (Or.inr (by decide))
  by_cases hB : c = '['
  · subst hB; cases b <;> exact Or.inr (Or.inr (by decide))
  by_cases hC : c = ']'
  · subst hC; cases b <;> exact Or.inr (Or.inr (by decide))
  by_cases hD : c = ','
  · subst hD; cases b
    · exact Or.inr (Or.inl (by decide))
    · exact Or.inl (by decide)
  · have he : encChar b c = [c] := by simp [encChar, hA, hB, hC, hD]
    refine Or.inr (Or.inl ?_)
    rw [he]
    simp only [List.mem_singleton]
    exact fun h => hA h.symm

theorem encStep1 (b : Bool) (c : Char) :
    encD1 c = if encChar b c = ['&', '#', '4', '4', ';'] then [','] else encChar b c := by
  by_cases hA : c = '&'
  · subst hA; cases b <;> decide
  by_cases hB : c = '['
  · subst hB; cases b <;> decide
  by_cases hC : c = ']'
  · subst hC; cases b <;> decide
  by_cases hD : c = ','
  · subst hD; cases b <;> decide
  · have he : encChar b c = [c] := by simp [encChar, hA, hB, hC, hD]
    have hd : encD1 c = [c] := by simp [encD1, hA, hB, hC]
    rw [he, hd, if_neg (by simp)]

theorem encGood2 (c : Char) :
    encD1 c = ['&', '#', '9', '1', ';'] ∨ '&' ∉ encD1 c ∨
      ((encD1 c).length = 5 ∧ encD1 c ≠ ['&', '#', '9', '1', ';'] ∧
        '&' ∉ (encD1 c).drop 1) := by
  by_cases hA : c = '&'
  · subst hA; exact Or.inr (Or.inr (by decide))
  by_cases hB : c = '['
  · subst hB; exact Or.inl (by decide)
  by_cases hC : c = ']'
  · subst hC; exact Or.inr (Or.inr (by decide))
  · have he : encD1 c = [c] := by simp [encD1, hA, hB, hC]
    refine Or.inr (Or.inl ?_)
    rw [he]
    simp only [List.mem_singleton]
    exact fun h => hA h.symm

theorem encStep2 (c : Char) :
    encD2 c = if encD1 c = ['&', '#', '9', '1', ';'] then ['['] else encD1 c := by
  by_cases hA : c = '&'
  · subst hA; decide
  by_cases hB : c = '['
  · subst hB; decide
  by_cases hC : c = ']'
  · subst hC; decide
  · have he : encD1 c = [c] := by simp [encD1, hA, hB, hC]
    have hd : encD2 c = [c] := by simp [encD2, hA, hC]
    rw [he, hd, if_neg (by simp)]

theorem encGood3 (c : Char) :
    encD2 c = ['&', '#', '9', '3', ';'] ∨ '&' ∉ encD2 c ∨
      ((encD2 c).length = 5 ∧ encD2 c ≠ ['&', '#', '9', '3', ';'] ∧
        '&' ∉ (encD2 c).drop 1) := by
  by_cases hA : c = '&'
  · subst hA; exact Or.inr (Or.inr (by decide))
  by_cases hC : c = ']'
  · subst hC; exact Or.inl (by decide)
  · have he : encD2 c = [c] := by simp [encD2, hA, hC]
    refine Or.inr (Or.inl ?_)
    rw [he]
    simp only [List.mem_singleton]
    exact fun h => hA h.symm

theorem encStep3 (c : Char) :
    encD3 c = if encD2 c = ['&', '#', '9', '3', ';'] then [']'] else encD2 c := by
  by_cases hA : c = '&'
  · subst hA; decide
  by_cases hC : c = ']'
  · subst hC; decide
  · have he : encD2 c = [c] := by simp [encD2, hA, hC]
    have hd : encD3 c = [c] := by simp [encD3, hA]
    rw [he, hd, if_neg (by simp)]

theorem encGood4 (c : Char) :
    encD3 c = ['&', 'a', 'm', 'p', ';'] ∨ '&' ∉ encD3 c ∨
      ((encD3 c).length = 5 ∧ encD3 c ≠ ['&', 'a', 'm', 'p', ';'] ∧
        '&' ∉ (encD3 c).drop 1) := by
  by_cases hA : c = '&'
  · subst hA; exact Or.inl (by decide)
  · have he : encD3 c = [c] := by simp [encD3, hA]
    refine Or.inr (Or.inl ?_)
    rw [he]
    simp only [List.mem_singleton]
    exact fun h => hA h.symm

theorem encStep4 (c : Char) :
    [c] = if encD3 c = ['&', 'a', 'm', 'p', ';'] then ['&'] else encD3 c := by
  by_cases hA : c = '&'
  · subst hA; decide
  · have he : encD3 c = [c] := by simp [encD3, hA]
    rw [he, if_neg (by simp)]

/-- Round trip of the escape codes: `unescape(escape(s))` is the identity,
whether or not commas were escaped. -/
theorem unescape_escape (b : Bool) (s : List Char) : unescape (escape b s) = s := by
  rw [escape_eq_encApply, unescape,
    replace5_encApply '&' '#' '4' '4' ';' [','] (encChar b) encD1
      (encGood1 b) (encStep1 b) s,
    replace5_encApply '&' '#' '9' '1' ';' ['['] encD1 encD2 encGood2 encStep2 s,
    replace5_encApply '&' '#' '9' '3' ';' [']'] encD2 encD3 encGood3 encStep3 s,
    replace5_encApply '&' 'a' 'm' 'p' ';' ['&'] encD3 (fun c => [c]) encGood4
      (fun c => encStep4 c) s,
    encApply_singleton s]

theorem encChar_no_open (b : Bool) (c : Char) : '[' ∉ encChar b c := by
  by_cases hA : c = '&'
  · subst hA; cases b <;> decide
  by_cases hB : c = '['
  · subst hB; cases b <;> decide
  by_cases hC : c = ']'
  · subst hC; cases b <;> decide
  by_cases hD : c = ','
  · subst hD; cases b <;> decide
  · have he : encChar b c = [c] := by simp [encChar, hA, hB, hC, hD]
    rw [he]
    simp only [List.mem_singleton]
    exact fun h => hB h.symm

theorem encChar_true_val (c : Char) :
    ',' ∉ encChar true c ∧ ']' ∉ encChar true c := by
  by_cases hA : c = '&'
  · subst hA; decide
  by_cases hB : c = '['
  · subst hB; decide
  by_cases hC : c = ']'
  · subst hC; decide
  by_cases hD : c = ','
  · subst hD; decide
  · have he : encChar true c = [c] := by simp [encChar, hA, hB, hC, hD]
    rw [he]
    simp only [List.mem_singleton]
    exact ⟨fun h => hD h.symm, fun h => hC h.symm⟩

theorem escape_no_open (b : Bool) (s : List Char) : '[' ∉ escape b s := by
  induction s with
  | nil => rw [escape_nil]; simp
  | cons c cs ih =>
    rw [escape_cons]
    intro hmem
    rcases List.mem_append.mp hmem with h | h
    · exact encChar_no_open b c h
    · exact ih h

theorem escape_true_val (s : List Char) :
    ',' ∉ escape true s ∧ ']' ∉ escape true s := by
  induction s with
  | nil => rw [escape_nil]; simp
  | cons c cs ih =>
    rw [escape_cons]
    constructor <;> intro hmem <;> rcases List.mem_append.mp hmem with h | h
    · exact (encChar_true_val c).1 h
    · exact ih.1 h
    · exact (encChar_true_val c).2 h
    · exact ih.2 h

theorem encChar_ne_nil (b : Bool) (c : Char) : encChar b c ≠ [] := by
  by_cases hA : c = '&'
  · subst hA; cases b <;> decide
  by_cases hB : c = '['
  · subst hB; cases b <;> decide
  by_cases hC : c = ']'
  · subst hC; cases b <;> decide
  by_cases hD : c = ','
  · subst hD; cases b <;> decide
  · have he : encChar b c = [c] := by simp [encChar, hA, hB, hC, hD]
    rw [he]
    simp

theorem escape_ne_nil (b : Bool) (s : List Char) (h : s ≠ []) : escape b s ≠ [] := by
  cases s with
  | nil => exact absurd rfl h
  | cons c cs =>
    rw [escape_cons]
    intro hc
    exact encChar_ne_nil b c (List.append_eq_nil.mp hc).1

theorem takeWhile_split (p : Char → Bool) :
    ∀ (x : List Char) (y : Char) (ys : List Char), (∀ c ∈ x, p c = true) → p y = false →
      (x ++ y :: ys).takeWhile p = x ∧ (x ++ y :: ys).dropWhile p = y :: ys := by
  intro x
  induction x with
  | nil =>
    intro y ys _ hy
    constructor
    · rw [List.nil_append, List.takeWhile_cons, hy]; simp
    · rw [List.nil_append, List.dropWhile_cons, hy]; simp
  | cons c x2 ih =>
    intro y ys hx hy
    have hc : p c = true := hx c (by simp)
    have hx2 : ∀ c ∈ x2, p c = true := fun d hd => hx d (by simp [hd])
    obtain ⟨ht, hd⟩ := ih y ys hx2 hy
    constructor
    · rw [List.cons_append, List.takeWhile_cons, hc, ht]; simp
    · rw [List.cons_append, List.dropWhile_cons, hc, hd]; simp

theorem splitOnComma_no_comma : ∀ x : List Char, ',' ∉ x → splitOnComma x = [x] := by
  intro x
  induction x with
  | nil => intro _; rfl
  | cons c rest ih =>
    intro hx
    simp only [List.mem_cons, not_or] at hx
    obtain ⟨hc, hrest⟩ := hx
    rw [splitOnComma, if_neg fun h => hc h.symm, ih hrest]

theorem splitFirstEq_canon : ∀ (k v : List Char), '=' ∉ k →
    splitFirstEq (k ++ '=' :: v) = some (k, v) := by
  intro k
  induction k with
  | nil =>
    intro v _
    rw [List.nil_append, splitFirstEq, if_pos rfl]
  | cons c k2 ih =>
    intro v hk
    simp only [List.mem_cons, not_or] at hk
    obtain ⟨hc, hk2⟩ := hk
    rw [List.cons_append, splitFirstEq, if_neg fun h => hc h.symm, ih v hk2]
    rfl

theorem parseParamsF_canon (fuel : Nat) (k ev rest acc : List Char)
    (hk : ¬ k = []) (hkname : ∀ c ∈ k, isCQNameChar c = true)
    (hv : ∀ c ∈ ev, isCQValChar c = true) :
    parseParamsF (fuel + 2) (',' :: (k ++ '=' :: (ev ++ ']' :: rest))) acc =
      some (acc ++ ',' :: (k ++ '=' :: ev), rest) := by
  obtain ⟨hkt, hkd⟩ := takeWhile_split isCQNameChar k '='
    (ev ++ ']' :: rest) hkname (by decide)
  obtain ⟨hvt, hvd⟩ := takeWhile_split isCQValChar ev ']' rest hv (by decide)
  show parseParamsF (fuel + 1 + 1) (',' :: (k ++ '=' :: (ev ++ ']' :: rest))) acc = _
  simp only [parseParamsF, hkt, hkd, hvt, hvd, if_pos rfl, if_neg hk]
  simp

theorem tryCQ_canon (ty k : List Char) (v : String) (rest : List Char)
    (hty : ¬ ty = []) (htyname : ∀ c ∈ ty, isCQNameChar c = true)
    (hk : ¬ k = []) (hkname : ∀ c ∈ k, isCQNameChar c = true) :
    tryCQ ('C' :: 'Q' :: ':' ::
        (ty ++ ',' :: (k ++ '=' :: (escape true v.toList ++ ']' :: rest)))) =
      some (String.mk ty, ',' :: (k ++ '=' :: escape true v.toList), rest) := by
  have hv : ∀ c ∈ escape true v.toList, isCQValChar c = true := by
    intro c hc
    have hcm : ¬ c = ',' := fun h => (escape_true_val v.toList).1 (h ▸ hc)
    have hcb : ¬ c = ']' := fun h => (escape_true_val v.toList).2 (h ▸ hc)
    simp [isCQValChar, hcm, hcb]
  obtain ⟨htt, htd⟩ := takeWhile_split isCQNameChar ty ','
    (k ++ '=' :: (escape true v.toList ++ ']' :: rest)) htyname (by decide)
  simp only [tryCQ, htt, htd, if_neg hty, and_self, if_true, eq_self_iff_true]
  have harg : (',' :: (k ++ '=' :: (escape true v.toList ++ ']' :: rest))).length + 1 =
      (k ++ '=' :: (escape true v.toList ++ ']' :: rest)).length + 2 := by
    rw [List.length_cons]
  rw [harg, parseParamsF_canon _ k (escape true v.toList) rest [] hk hkname hv]
  rfl

theorem buildData_canon (k : List Char) (v : String)
    (hk : ¬ k = []) (hkname : ∀ c ∈ k, isCQNameChar c = true)
    (hkstrip : stripChars k = k) :
    buildData (',' :: (k ++ '=' :: escape true v.toList)) = [(String.mk k, v)] := by
  have hknc : ',' ∉ k := fun h => absurd (hkname ',' h) (by decide)
  have hkne : '=' ∉ k := fun h => absurd (hkname '=' h) (by decide)
  have hnc : ',' ∉ k ++ '=' :: escape true v.toList := by
    intro h
    rcases List.mem_append.mp h with h | h
    · exact hknc h
    · rcases List.mem_cons.mp h with h | h
      · exact absurd h (by decide)
      · exact (escape_true_val v.toList).1 h
  have hdw : (',' :: (k ++ '=' :: escape true v.toList)).dropWhile
      (fun c => decide (c = ',')) = k ++ '=' :: escape true v.toList := by
    rw [List.dropWhile_cons]
    simp only [decide_eq_true_eq, if_pos rfl]
    cases k with
    | nil => exact absurd rfl hk
    | cons c k2 =>
      have hc : ¬ c = ',' := fun h => hknc (h ▸ List.mem_cons_self c k2)
      rw [List.cons_append, List.dropWhile_cons]
      simp [hc]
  rw [buildData, if_neg (by simp), hdw, splitOnComma_no_comma _ hnc,
    List.foldl_cons, List.foldl_nil, splitFirstEq_canon k (escape true v.toList) hkne]
  show dataInsert [] (String.mk (stripChars k)) (String.mk (unescape (escape true v.toList))) =
    [(String.mk k, v)]
  rw [hkstrip, unescape_escape true v.toList]
  rfl

theorem closeAfterComma_le (acc cs p rest : List Char)
    (h : closeAfterComma acc cs = some (p, rest)) : rest.length ≤ cs.length := by
  cases cs with
  | nil => simp [closeAfterComma] at h
  | cons c2 r =>
    rw [closeAfterComma] at h
    split at h
    · simp only [Option.some.injEq, Prod.mk.injEq] at h
      rw [← h.2]
      simp
    · simp at h

theorem lenDropWhileLe (p : Char → Bool) : ∀ (l : List Char),
    (l.dropWhile p).length ≤ l.length := by
  intro l
  induction l with
  | nil => simp [List.dropWhile]
  | cons c t ih =>
    rw [List.dropWhile_cons]
    split
    · exact Nat.le_succ_of_le ih
    · exact le_rfl

theorem parseParamsF_rest_le : ∀ (fuel : Nat) (cs acc p rest : List Char),
    parseParamsF fuel cs acc = some (p, rest) → rest.length ≤ cs.length := by
  intro fuel
  induction fuel with
  | zero => intro cs acc p rest h; simp [parseParamsF] at h
  | succ n ih =>
    intro cs acc p rest h
    cases cs with
    | nil => simp [parseParamsF] at h
    | cons c cs1 =>
      simp only [parseParamsF] at h
      by_cases hc : c = ','
      · rw [if_pos hc] at h
        by_cases hk : cs1.takeWhile isCQNameChar = []
        · rw [if_pos hk] at h
          exact le_trans (closeAfterComma_le _ _ _ _ h) (by simp)
        · rw [if_neg hk] at h
          split at h
          next c2 cs3 hd =>
            split at h
            next he =>
              have h1 := ih _ _ _ _ h
              have h2 : (List.dropWhile isCQValChar cs3).length ≤ cs3.length :=
                lenDropWhileLe isCQValChar cs3
              have h3 : cs3.length + 1 ≤ cs1.length := by
                have h4 : (List.dropWhile isCQNameChar cs1).length ≤ cs1.length :=
                  lenDropWhileLe isCQNameChar cs1
                rw [hd] at h4
                simpa using h4
              simp only [List.length_cons]
              omega
            next he =>
              exact le_trans (closeAfterComma_le _ _ _ _ h) (by simp)
          next hd =>
            exact le_trans (closeAfterComma_le _ _ _ _ h) (by simp)
      · rw [if_neg hc] at h
        by_cases hc2 : c = ']'
        · rw [if_pos hc2] at h
          simp only [Option.some.injEq, Prod.mk.injEq] at h
          rw [← h.2]
          simp
        · rw [if_neg hc2] at h
          simp at h

theorem tryCQ_rest_le (cs : List Char) (ty : String) (p rest : List Char)
    (h : tryCQ cs = some (ty, p, rest)) : rest.length ≤ cs.length := by
  cases cs with
  | nil => simp [tryCQ] at h
  | cons c1 tl1 =>
    cases tl1 with
    | nil => simp [tryCQ] at h
    | cons c2 tl2 =>
      cases tl2 with
      | nil => simp [tryCQ] at h
      | cons c3 cs1 =>
        simp only [tryCQ] at h
        split at h
        · split at h
          · simp at h
          · cases hp : parseParamsF ((cs1.dropWhile isCQNameChar).length + 1)
                (cs1.dropWhile isCQNameChar) [] with
            | none => rw [hp] at h; simp at h
            | some q =>
              rw [hp] at h
              simp only [Option.map_some', Option.some.injEq, Prod.mk.injEq] at h
              have h1 := parseParamsF_rest_le _ _ _ q.1 q.2 (by rw [hp])
              have h2 : (cs1.dropWhile isCQNameChar).length ≤ cs1.length :=
                lenDropWhileLe isCQNameChar cs1
              have h3 : rest = q.2 := by rw [← h.2.2]
              rw [h3]
              simp only [List.length_cons]
              omega
        · simp at h

theorem parseAuxF_fuel : ∀ (n : Nat) (cs : List Char), cs.length ≤ n →
    ∀ (f g : Nat) (acc : List Char), cs.length < f → cs.length < g →
      parseAuxF f cs acc = parseAuxF g cs acc := by
  intro n
  induction n with
  | zero =>
    intro cs hle f g acc hf hg
    have hcs : cs = [] := List.eq_nil_of_length_eq_zero (by omega)
    subst hcs
    obtain ⟨f1, rfl⟩ : ∃ f1, f = f1 + 1 := ⟨f - 1, by omega⟩
    obtain ⟨g1, rfl⟩ : ∃ g1, g = g1 + 1 := ⟨g - 1, by omega⟩
    rfl
  | succ n ih =>
    intro cs hle f g acc hf hg
    cases cs with
    | nil =>
      obtain ⟨f1, rfl⟩ : ∃ f1, f = f1 + 1 := ⟨f - 1, by omega⟩
      obtain ⟨g1, rfl⟩ : ∃ g1, g = g1 + 1 := ⟨g - 1, by omega⟩
      rfl
    | cons c rest =>
      obtain ⟨f1, rfl⟩ : ∃ f1, f = f1 + 1 := ⟨f - 1, by omega⟩
      obtain ⟨g1, rfl⟩ : ∃ g1, g = g1 + 1 := ⟨g - 1, by omega⟩
      simp only [List.length_cons] at hle hf hg
      by_cases hc : c = '['
      · subst hc
        cases htc : tryCQ rest with
        | none =>
          simp only [parseAuxF, if_pos rfl, htc]
          exact ih rest (by omega) f1 g1 ('[' :: acc) (by omega) (by omega)
        | some r =>
          obtain ⟨ty, p, rest'⟩ := r
          have hlen := tryCQ_rest_le rest ty p rest' htc
          simp only [parseAuxF, if_pos rfl, htc]
          rw [ih rest' (by omega) f1 g1 [] (by omega) (by omega)]
          simp
      · simp only [parseAuxF, if_neg hc]
        exact ih rest (by omega) f1 g1 (c :: acc) (by omega) (by omega)

theorem parseAuxF_text (e : List Char) (he : ∀ c ∈ e, ¬ c = '[') :
    ∀ (cs acc : List Char) (f g : Nat), (e ++ cs).length < f → cs.length < g →
      parseAuxF f (e ++ cs) acc = parseAuxF g cs (e.reverse ++ acc) := by
  induction e with
  | nil =>
    intro cs acc f g hf hg
    simp only [List.nil_append, List.reverse_nil]
    exact parseAuxF_fuel cs.length cs le_rfl f g acc (by simpa using hf) hg
  | cons c e2 ih =>
    intro cs acc f g hf hg
    have hc : ¬ c = '[' := he c (by simp)
    have he2 : ∀ d ∈ e2, ¬ d = '[' := fun d hd => he d (by simp [hd])
    simp only [List.length_append, List.length_cons] at hf
    obtain ⟨f1, rfl⟩ : ∃ f1, f = f1 + 1 := ⟨f - 1, by omega⟩
    rw [List.cons_append]
    show parseAuxF (f1 + 1) (c :: (e2 ++ cs)) acc = _
    simp only [parseAuxF, if_neg hc]
    rw [ih he2 cs (c :: acc) f1 g (by simp only [List.length_append]; omega) hg,
      List.reverse_cons, List.append_assoc]
    rfl

theorem canonSeg_shape (g : OneBotSegment) (h : canonSeg g = true) :
    ∃ k v, g.data = [(k, v)] ∧
      ((g.ty = "text" ∧ k = "text") ∨ (g.ty = "image" ∧ k = "file") ∨
        (g.ty = "at" ∧ k = "qq") ∨ (g.ty = "face" ∧ k = "id") ∨
        (g.ty = "reply" ∧ k = "id")) := by
  cases hd : g.data with
  | nil => simp [canonSeg, hd] at h
  | cons kv rest =>
    obtain ⟨k, v⟩ := kv
    cases rest with
    | nil =>
      refine ⟨k, v, rfl, ?_⟩
      simp only [canonSeg, hd, Bool.or_eq_true, Bool.and_eq_true,
        decide_eq_true_eq] at h
      tauto
    | cons kv2 rest2 => simp [canonSeg, hd] at h

theorem canonMsg_cons (g : OneBotSegment) (tail : List OneBotSegment)
    (h : canonMsg (g :: tail) = true) :
    canonSeg g = true ∧
      (g.ty = "text" → (lookupAssoc g.data "text").getD "" ≠ "") ∧
      canonMsg tail = true ∧
      (g.ty = "text" → headNotText tail = true) := by
  cases tail with
  | nil =>
    simp only [canonMsg, Bool.and_eq_true, Bool.or_eq_true, Bool.not_eq_true',
      decide_eq_true_eq, decide_eq_false_iff_not, ne_eq] at h
    obtain ⟨h1, h2⟩ := h
    refine ⟨h1, fun ht => ?_, rfl, fun _ => rfl⟩
    rcases h2 with h2 | h2
    · exact absurd ht h2
    · exact h2
  | cons g2 rest =>
    simp only [canonMsg, Bool.and_eq_true, Bool.or_eq_true, Bool.not_eq_true',
      decide_eq_true_eq, decide_eq_false_iff_not, ne_eq] at h
    obtain ⟨⟨⟨h1, h2⟩, h3⟩, h4⟩ := h
    refine ⟨h1, fun ht => ?_, h4, fun ht => ?_⟩
    · rcases h2 with h2 | h2
      · exact absurd ht h2
      · exact h2
    · rcases h3 with h3 | h3
      · exact absurd ht h3
      · simp [headNotText, h3]

theorem joinComma_single (x : List Char) : joinComma [x] = x := rfl

theorem serializeMsg_cq_cons (g : OneBotSegment) (K v : String)
    (rest : List OneBotSegment) (hdata : g.data = [(K, v)])
    (hty : ¬ g.ty = "text") :
    serializeMsg (g :: rest) =
      '[' :: 'C' :: 'Q' :: ':' ::
        (g.ty.toList ++ ',' ::
          (K.toList ++ '=' :: (escape true v.toList ++ ']' :: serializeMsg rest))) := by
  rw [serializeMsg]
  simp only [segStr, hdata, hty, if_false, List.map_cons, List.map_nil,
    joinComma_single]
  rw [if_neg (by simp)]
  simp [List.append_assoc]

theorem serializeMsg_text_cons (g : OneBotSegment) (v : String)
    (rest : List OneBotSegment) (htext : g.ty = "text")
    (hdata : g.data = [("text", v)]) :
    serializeMsg (g :: rest) = escape false v.toList ++ serializeMsg rest := by
  rw [serializeMsg]
  congr 1
  simp [segStr, htext, hdata, lookupAssoc]

theorem parseAuxF_cq (fuel : Nat) (g : OneBotSegment) (K v : String)
    (tail acc : List Char) (hdata : g.data = [(K, v)])
    (hty : ¬ g.ty.toList = []) (htyname : ∀ c ∈ g.ty.toList, isCQNameChar c = true)
    (hk : ¬ K.toList = []) (hkname : ∀ c ∈ K.toList, isCQNameChar c = true)
    (hkstrip : stripChars K.toList = K.toList) :
    parseAuxF (fuel + 1)
      ('[' :: 'C' :: 'Q' :: ':' ::
        (g.ty.toList ++ ',' ::
          (K.toList ++ '=' :: (escape true v.toList ++ ']' :: tail)))) acc
    = flushText acc ++ g :: parseAuxF fuel tail [] := by
  simp only [parseAuxF, if_pos rfl,
    tryCQ_canon g.ty.toList K.toList v tail hty htyname hk hkname]
  rw [mkCQSeg, buildData_canon K.toList v hk hkname hkstrip]
  have h1 : (⟨String.mk g.ty.toList, [(String.mk K.toList, v)]⟩ : OneBotSegment) = g := by
    rw [show String.mk g.ty.toList = g.ty from rfl,
      show String.mk K.toList = K from rfl, ← hdata]
  rw [h1]
  simp

theorem parse_serialize : ∀ (m : List OneBotSegment), canonMsg m = true →
    (∀ fuel acc, (serializeMsg m).length < fuel → headNotText m = true →
        parseAuxF fuel (serializeMsg m) acc = flushText acc ++ m)
    ∧ ∀ fuel, (serializeMsg m).length < fuel →
        parseAuxF fuel (serializeMsg m) [] = m := by
  intro m
  induction m with
  | nil =>
    intro _
    constructor
    · intro fuel acc hf _
      obtain ⟨f1, rfl⟩ : ∃ f1, fuel = f1 + 1 := ⟨fuel - 1, by omega⟩
      show parseAuxF (f1 + 1) [] acc = flushText acc ++ []
      rw [List.append_nil]
      rfl
    · intro fuel hf
      obtain ⟨f1, rfl⟩ : ∃ f1, fuel = f1 + 1 := ⟨fuel - 1, by omega⟩
      rfl
  | cons g tail ih =>
    intro hcanon
    obtain ⟨hseg, htextne, htail, hadj⟩ := canonMsg_cons g tail hcanon
    obtain ⟨ihA, ihB⟩ := ih htail
    obtain ⟨k, v, hdata, hcases⟩ := canonSeg_shape g hseg
    by_cases htext : g.ty = "text"
    · have hk : k = "text" := by
        rcases hcases with ⟨_, hk⟩ | ⟨h, _⟩ | ⟨h, _⟩ | ⟨h, _⟩ | ⟨h, _⟩
        · exact hk
        all_goals exact absurd (htext ▸ h) (by decide)
      subst hk
      have hvne : v ≠ "" := by
        have h1 := htextne htext
        rw [hdata] at h1
        simpa [lookupAssoc] using h1
      have hvl : v.toList ≠ [] := by
        intro h
        apply hvne
        calc v = String.mk v.toList := rfl
          _ = String.mk [] := by rw [h]
          _ = "" := rfl
      have hene : escape false v.toList ≠ [] := escape_ne_nil false v.toList hvl
      have heno : ∀ c ∈ escape false v.toList, ¬ c = '[' :=
        fun c hc hc' => escape_no_open false v.toList (hc' ▸ hc)
      constructor
      · intro fuel acc hf hhead
        simp [headNotText, htext] at hhead
      · intro fuel hf
        rw [serializeMsg_text_cons g v tail htext hdata] at hf ⊢
        rw [parseAuxF_text (escape false v.toList) heno (serializeMsg tail) []
          fuel ((serializeMsg tail).length + 1) hf (by omega), List.append_nil,
          ihA ((serializeMsg tail).length + 1) (escape false v.toList).reverse
            (by omega) (hadj htext)]
        rw [flushText, if_neg (by simpa using hene), List.reverse_reverse,
          unescape_escape false v.toList]
        have hg : g = (⟨"text", [("text", String.mk v.toList)]⟩ : OneBotSegment) := by
          rw [show String.mk v.toList = v from rfl]
          calc g = ⟨g.ty, g.data⟩ := rfl
            _ = ⟨"text", [("text", v)]⟩ := by rw [htext, hdata]
        rw [hg]
        rfl
    · have key : ∀ fuel acc, (serializeMsg (g :: tail)).length < fuel →
          parseAuxF fuel (serializeMsg (g :: tail)) acc = flushText acc ++ g :: tail := by
        intro fuel acc hf
        rcases hcases with ⟨h0, _⟩ | ⟨hty, hk⟩ | ⟨hty, hk⟩ | ⟨hty, hk⟩ | ⟨hty, hk⟩
        · exact absurd h0 htext
        all_goals {
          subst hk
          rw [serializeMsg_cq_cons g _ v tail hdata htext] at hf ⊢
          have hf0 : 0 < fuel := Nat.lt_of_le_of_lt (Nat.zero_le _) hf
          obtain ⟨f1, rfl⟩ : ∃ f1, fuel = f1 + 1 := ⟨fuel - 1, by omega⟩
          rw [parseAuxF_cq f1 g _ v (serializeMsg tail) acc hdata
            (by rw [hty]; decide) (by rw [hty]; decide)
            (by decide) (by decide) (by decide)]
          have hlt : (serializeMsg tail).length < f1 := by
            simp only [List.length_cons, List.length_append] at hf
            omega
          rw [ihB f1 hlt]
        }
      refine ⟨fun fuel acc hf _ => key fuel acc hf, fun fuel hf => ?_⟩
      rw [key fuel [] hf]
      rfl

/-- C7 (counterexample to the unrestricted claim): the CQ-code round trip
fails on messages the claimed quantifier covers — a message holding a
single empty text segment parses back to the empty message, and two
adjacent text segments parse back merged into one. -/
theorem cq_roundtrip_fails :
    parseMsg (serializeMsg [textSeg ""]) ≠ [textSeg ""] ∧
      parseMsg (serializeMsg [textSeg "a", textSeg "b"]) ≠
        [textSeg "a", textSeg "b"] := by
  decide

/-- C7 (amended): for every message of constructor-shaped text / image /
at / face / reply segments with no empty text segment and no two adjacent
text segments, serialising to the CQ-code wire string and parsing back
with `_construct` yields the original message. -/
theorem cq_roundtrip (m : List OneBotSegment) (h : canonMsg m = true) :
    parseMsg (serializeMsg m) = m := by
  rw [parseMsg]
  exact (parse_serialize m h).2 ((serializeMsg m).length + 1) (by omega)

/-- Witness for `cq_roundtrip` at a concrete four-segment message whose
text holds every escaped character. -/
theorem cq_roundtrip_witness :
    canonMsg [textSeg "hi ", atSeg "123", textSeg " a&b,[x]", faceSeg 7] = true ∧
      parseMsg (serializeMsg
          [textSeg "hi ", atSeg "123", textSeg " a&b,[x]", faceSeg 7]) =
        [textSeg "hi ", atSeg "123", textSeg " a&b,[x]", faceSeg 7] :=
  ⟨by decide, cq_roundtrip
    [textSeg "hi ", atSeg "123", textSeg " a&b,[x]", faceSeg 7] (by decide)⟩

end WebBot
